import Mathlib

/-!
Keystone wire schema (`idp/keystone/internal/keystone/params.go`)

A shallow embedding of the keystone client's wire types together with the
parts of the Go standard library their behaviour rests on
(`encoding/json` struct encoding and decoding, `net/http.Header.Set`,
`time.Parse`, `time.Time.MarshalJSON` and `time.Time.UnmarshalJSON`).

The library functions follow the sources of the Go standard library of the
years the repository was written in: `Time.UnmarshalJSON` ignores `null` and
otherwise parses with the quoted `RFC3339` layout through `Parse`, and
`Time.MarshalJSON` formats with `RFC3339Nano` after checking the year.

Conventions.
* A Go `string` or `[]byte` that is inspected byte by byte (timestamps, header
  names) is a `List Nat` of byte values; `ascii` turns an ASCII literal into it.
* Text that is only stored and compared (JSON keys, field values) is a `String`.
* Go `int` values are `Int`.  Where the 64-bit width decides the outcome the
  conversion is written out: `u64` and `i64` in `Time.abs`, `daysSinceEpoch`,
  `Date` and `Parse`, and the overflow checks of `leadingInt`.
* A Go function that returns `(value, error)` returns a pair whose second
  component is `Option` of the error, or an `Except`.
* A method with a pointer receiver takes the value before the call and returns
  the value after it.
-/

namespace keystone

/-! ## Bytes -/

/-- Bytes of an ASCII literal. -/
def ascii (s : String) : List Nat := s.toList.map Char.toNat

/-! ## `encoding/json`: values, struct tags, struct encoding -/

/-- JSON text, kept as a tree.  `raw` is the output of a `MarshalJSON` method,
which the encoder copies into its output. -/
inductive JSON where
  | null
  | bool (b : Bool)
  | str (s : String)
  | raw (bytes : List Nat)
  | arr (elems : List JSON)
  | obj (members : List (String × JSON))

/-- Keys of a JSON object, in encoding order (no keys for other values). -/
def JSON.keys : JSON → List String
  | JSON.obj ms => ms.map Prod.fst
  | _ => []

/-- Value stored under a key of a JSON object: as in `encoding/json`, of
several members with the same key the last one decides. -/
def JSON.get? : JSON → String → Option JSON
  | JSON.obj ms, k => (ms.reverse.find? (fun m => m.1 == k)).map Prod.snd
  | _, _ => none

/-- Splits a struct tag value at its commas (`strings.Split(tag, ",")`). -/
def splitTag : List Char → List (List Char)
  | [] => [[]]
  | c :: cs =>
    match splitTag cs with
    | [] => [[c]]
    | w :: ws => if c = ',' then [] :: w :: ws else (c :: w) :: ws

/-- Name part of a `json:"..."` tag (`parseTag`): the text before the first comma. -/
def tagName (tag : String) : String :=
  String.mk ((splitTag tag.toList).headD [])

/-- Options of a `json:"..."` tag: the comma-separated words after the name. -/
def tagOptions (tag : String) : List String :=
  ((splitTag tag.toList).drop 1).map String.mk

/-- A struct field as the encoder sees it (`typeFields`): the key it is
written under, whether it is dropped altogether (tag `-`), whether the tag
carries the `omitempty` option, whether the field's value is empty (false, 0,
nil pointer, nil interface, empty array, slice, map or string), and the
encoding of the value. -/
structure Field where
  key : String
  skip : Bool
  omitEmpty : Bool
  isEmpty : Bool
  value : Except String JSON

/-- The key of the field of Go name `goName` with `json` tag `tag` (empty when
the field has no tag): the tag's name, or the Go name when the tag gives none. -/
def fieldKey (goName tag : String) : String :=
  if tagName tag = "" then goName else tagName tag

/-- The field of Go name `goName` with `json` tag `tag`: only the option
spelled `omitempty` is recognised, any other word is ignored. -/
def mkField (goName tag : String) (isEmpty : Bool) (value : Except String JSON) : Field :=
  { key := fieldKey goName tag
    skip := tag == "-"
    omitEmpty := (tagOptions tag).contains "omitempty"
    isEmpty := isEmpty
    value := value }

/-- Is the field written by the struct encoder? -/
def Field.emitted (f : Field) : Bool := !f.skip && !(f.omitEmpty && f.isEmpty)

/-- Members of the object a struct encodes to (`structEncoder.encode`): the
emitted fields in declaration order; the first value that fails to encode
fails the whole encoding. -/
def encodeMembers : List Field → Except String (List (String × JSON))
  | [] => Except.ok []
  | f :: fs =>
    if f.emitted then
      match f.value with
      | Except.error e => Except.error e
      | Except.ok v =>
        match encodeMembers fs with
        | Except.error e => Except.error e
        | Except.ok ms => Except.ok ((f.key, v) :: ms)
    else encodeMembers fs

/-- Encoding of a struct with the given fields. -/
def encodeStruct (fs : List Field) : Except String JSON :=
  match encodeMembers fs with
  | Except.error e => Except.error e
  | Except.ok ms => Except.ok (JSON.obj ms)

/-- A `string` field. -/
def stringField (goName tag : String) (s : String) : Field :=
  mkField goName tag (s == "") (Except.ok (JSON.str s))

/-- A `bool` field. -/
def boolField (goName tag : String) (b : Bool) : Field :=
  mkField goName tag (!b) (Except.ok (JSON.bool b))

/-- A pointer field: `nil` is empty and encodes as `null`. -/
def ptrField {α : Type} (goName tag : String) (enc : α → Except String JSON)
    (p : Option α) : Field :=
  mkField goName tag p.isNone (match p with
    | none => Except.ok JSON.null
    | some v => enc v)

/-- A struct-valued field: never empty. -/
def structField (goName tag : String) (v : Except String JSON) : Field :=
  mkField goName tag false v

/-- A `[]string` field: `none` is the nil slice, which encodes as `null`; a
slice of length 0 is empty. -/
def stringsField (goName tag : String) (xs : Option (List String)) : Field :=
  mkField goName tag (match xs with
    | none => true
    | some l => l.isEmpty) (match xs with
    | none => Except.ok JSON.null
    | some l => Except.ok (JSON.arr (l.map JSON.str)))

/-! ## `encoding/json`: struct decoding -/

/-- ASCII lower-casing of one character. -/
def lowerASCII (c : Char) : Char :=
  if 'A' ≤ c ∧ c ≤ 'Z' then Char.ofNat (c.toNat + 32) else c

/-- Case-insensitive comparison of an object key with a field's key
(`equalFold` on the ASCII names used here). -/
def equalFold (a b : String) : Bool :=
  a.toList.map lowerASCII == b.toList.map lowerASCII

/-- Index of the struct field an object key is decoded into (`decodeState.object`):
a field whose key equals the object key exactly, else the first field whose key
equals it up to case, else none (the member is skipped). -/
def findField (fieldKeys : List String) (key : String) : Option Nat :=
  match fieldKeys.indexOf? key with
  | some i => some i
  | none => List.findIdx? (fun k => equalFold k key) fieldKeys

/-- Decoding of a JSON value into a `string` field (`literalStore`): a string
is stored, `null` leaves the field as it is, any other value leaves the field
as it is and records an `UnmarshalTypeError`. -/
def decodeString (v : JSON) (old : String) : String × Option String :=
  match v with
  | JSON.str s => (s, none)
  | JSON.null => (old, none)
  | _ => (old, some "json: cannot unmarshal value into Go value of type string")

/-- The first error recorded while decoding (`saveError`). -/
def firstError (e1 e2 : Option String) : Option String :=
  match e1 with
  | some e => some e
  | none => e2

/-! ## `net/http.Header` -/

/-- The `http.Header` map, header name to its list of values, once it has been
made (a write to a nil map panics in Go, for `Set` as for any other write). -/
abbrev Header := List Nat → Option (List String)

/-- Bytes allowed in a header field name (`validHeaderFieldByte`): the token
characters of RFC 7230. -/
def validHeaderFieldByte (b : Nat) : Bool :=
  (48 ≤ b && b ≤ 57) || (65 ≤ b && b ≤ 90) || (97 ≤ b && b ≤ 122) ||
  b ∈ [33, 35, 36, 37, 38, 39, 42, 43, 45, 46, 94, 95, 96, 124, 126]

/-- The letter-case pass of `canonicalMIMEHeaderKey`: a letter is made upper
case at the start and after a hyphen, lower case elsewhere. -/
def canonicalCase : Bool → List Nat → List Nat
  | _, [] => []
  | upper, c :: cs =>
    let c1 := if upper && 97 ≤ c && c ≤ 122 then c - 32
              else if !upper && 65 ≤ c && c ≤ 90 then c + 32 else c
    c1 :: canonicalCase (c == 45) cs

/-- Canonical form of a header name (`textproto.CanonicalMIMEHeaderKey`): a
name holding a byte that is not a token character is returned unchanged. -/
def CanonicalMIMEHeaderKey (s : List Nat) : List Nat :=
  if s.all validHeaderFieldByte then canonicalCase true s else s

/-- Go `http.Header.Set`: the entry of the canonical key becomes the single
value, replacing what was there. -/
def Header.Set (h : Header) (key : List Nat) (value : String) : Header :=
  fun k => if k = CanonicalMIMEHeaderKey key then some [value] else h k

/-- Go `http.Header.Get`: the first value stored under the canonical key, or
the empty string. -/
def Header.Get (h : Header) (key : List Nat) : String :=
  match h (CanonicalMIMEHeaderKey key) with
  | some (v :: _) => v
  | _ => ""

/-- Modelled from the spec: the constant `subjectTokenHeader`, declared in a
file of the package that is not part of the sources at hand; the spec names the
response header that carries the token, `X-Subject-Token`. -/
def subjectTokenHeader : List Nat := ascii "X-Subject-Token"

/-! ## `time`: instants, calendar arithmetic -/

namespace time

/-- A `time.Time`: `sec` counts seconds since January 1, year 1 00:00:00 UTC
(an `int64`), `nsec` the nanoseconds within that second, and `offset` is what
the time's `Location` amounts to at this instant, its offset east of UTC in
seconds.  `UTC` is offset 0; the location `Parse` attaches for a parsed
offset (`Local` when its offset matches, else `FixedZone("", offset)`) has
that offset.  The zero value `Time{}` is `⟨0, 0, 0⟩`. -/
structure Time where
  sec : Int
  nsec : Int
  offset : Int
deriving DecidableEq, Repr

/-- The zero `Time{}`. -/
def Time.zero : Time := ⟨0, 0, 0⟩

/-- Conversion to `uint64`. -/
def u64 (x : Int) : Int := x % 18446744073709551616

/-- Conversion to `int64`. -/
def i64 (x : Int) : Int := (x + 9223372036854775808) % 18446744073709551616 - 9223372036854775808

def secondsPerMinute : Int := 60
def secondsPerHour : Int := 60 * 60
def secondsPerDay : Int := 24 * 60 * 60
def daysPer400Years : Int := 365 * 400 + 97
def daysPer100Years : Int := 365 * 100 + 24
def daysPer4Years : Int := 365 * 4 + 1

/-- The year of the absolute epoch, a multiple of 400 plus 1 far enough in the
past for every `int64` second count to be a non-negative absolute time. -/
def absoluteZeroYear : Int := -292277022399

/-- Offset `(absoluteZeroYear - internalYear) * 365.2425 * secondsPerDay` between the
absolute epoch and the internal one (year 1). -/
def absoluteToInternal : Int := -9223371966579724800
def internalToAbsolute : Int := 9223371966579724800

/-- Table `daysBefore[m]`: days in a non-leap year before month `m+1`. -/
def daysBefore : Int → Int
  | 0 => 0
  | 1 => 31
  | 2 => 31 + 28
  | 3 => 31 + 28 + 31
  | 4 => 31 + 28 + 31 + 30
  | 5 => 31 + 28 + 31 + 30 + 31
  | 6 => 31 + 28 + 31 + 30 + 31 + 30
  | 7 => 31 + 28 + 31 + 30 + 31 + 30 + 31
  | 8 => 31 + 28 + 31 + 30 + 31 + 30 + 31 + 31
  | 9 => 31 + 28 + 31 + 30 + 31 + 30 + 31 + 31 + 30
  | 10 => 31 + 28 + 31 + 30 + 31 + 30 + 31 + 31 + 30 + 31
  | 11 => 31 + 28 + 31 + 30 + 31 + 30 + 31 + 31 + 30 + 31 + 30
  | _ => 31 + 28 + 31 + 30 + 31 + 30 + 31 + 31 + 30 + 31 + 30 + 31

/-- Go `isLeap`. -/
def isLeap (year : Int) : Bool :=
  year % 4 == 0 && (year % 100 != 0 || year % 400 == 0)

/-- Go `daysIn`: the number of days of month `m` of `year`. -/
def daysIn (m year : Int) : Int :=
  if m == 2 && isLeap year then 29 else daysBefore m - daysBefore (m - 1)

/-- Go `norm`: `(hi, lo)` with `lo` brought into `[0, base)` by carrying into `hi`. -/
def norm (hi lo base : Int) : Int × Int :=
  let (hi1, lo1) :=
    if lo < 0 then
      let n := (-lo - 1) / base + 1
      (hi - n, lo + n * base)
    else (hi, lo)
  if lo1 ≥ base then
    let n := lo1 / base
    (hi1 + n, lo1 - n * base)
  else (hi1, lo1)

/-- Go `Time.abs`: seconds since the absolute epoch of the wall clock the time
shows in its location, as a `uint64`. -/
def Time.abs (t : Time) : Int := u64 (t.sec + t.offset + internalToAbsolute)

/-- Go `absDate(abs, full)`: year, month, day of month and day of year of an
absolute time; without `full` only the year and the day of the year are
computed, month and day are 0. -/
def absDate (abs : Int) (full : Bool) : Int × Int × Int × Int :=
  -- Split into time and day.
  let d := abs / secondsPerDay
  -- Account for 400 year cycles.
  let n := d / daysPer400Years
  let y := 400 * n
  let d := d - daysPer400Years * n
  -- Cut off 100-year cycles.
  let n := d / daysPer100Years
  let n := n - n / 4
  let y := y + 100 * n
  let d := d - daysPer100Years * n
  -- Cut off 4-year cycles.
  let n := d / daysPer4Years
  let y := y + 4 * n
  let d := d - daysPer4Years * n
  -- Cut off years within a 4-year cycle.
  let n := d / 365
  let n := n - n / 4
  let y := y + n
  let d := d - 365 * n
  let year := y + absoluteZeroYear
  let yday := d
  if !full then (year, 0, 0, yday)
  else if isLeap year && yday == 31 + 29 - 1 then
    -- Leap day.
    (year, 2, 29, yday)
  else
    -- After leap day; pretend it wasn't there.
    let day := if isLeap year && yday > 31 + 29 - 1 then yday - 1 else yday
    -- Estimate month on assumption that every month has 31 days.
    let month := day / 31
    let done := daysBefore (month + 1)
    if day ≥ done then (year, month + 2, day - done + 1, yday)
    else (year, month + 1, day - daysBefore month + 1, yday)

/-- The last part of `absDate` on its own: month and day of the month of day
`yday` of a year that is a leap year or not. -/
def monthDay (leap : Bool) (yday : Int) : Int × Int :=
  if leap && yday == 31 + 29 - 1 then (2, 29)
  else
    let day := if leap && yday > 31 + 29 - 1 then yday - 1 else yday
    let month := day / 31
    let done := daysBefore (month + 1)
    if day ≥ done then (month + 2, day - done + 1)
    else (month + 1, day - daysBefore month + 1)

/-- Day of the year, counted from 0, of day `day` of month `month`, as `Date`
adds it up. -/
def yearDay (leap : Bool) (month day : Int) : Int :=
  daysBefore (month - 1) + (if leap && month ≥ 3 then 1 else 0) + (day - 1)

/-- Go `absClock`: hour, minute and second within the day of an absolute time. -/
def absClock (abs : Int) : Int × Int × Int :=
  let sec := abs % secondsPerDay
  let hour := sec / secondsPerHour
  let sec := sec - hour * secondsPerHour
  let min := sec / secondsPerMinute
  let sec := sec - min * secondsPerMinute
  (hour, min, sec)

/-- Go `Time.Year`. -/
def Time.Year (t : Time) : Int := (absDate t.abs false).1
/-- Go `Time.Month`. -/
def Time.Month (t : Time) : Int := (absDate t.abs true).2.1
/-- Go `Time.Day`. -/
def Time.Day (t : Time) : Int := (absDate t.abs true).2.2.1
/-- Go `Time.Hour`. -/
def Time.Hour (t : Time) : Int := (t.abs % secondsPerDay) / secondsPerHour
/-- Go `Time.Minute`. -/
def Time.Minute (t : Time) : Int := (t.abs % secondsPerHour) / secondsPerMinute
/-- Go `Time.Second`. -/
def Time.Second (t : Time) : Int := t.abs % secondsPerMinute
/-- Go `Time.Nanosecond`. -/
def Time.Nanosecond (t : Time) : Int := t.nsec
/-- The offset `Time.Zone` reports. -/
def Time.zoneOffset (t : Time) : Int := t.offset

/-- Go `daysSinceEpoch`: the number of days from the absolute epoch to the
start of `year`. -/
def daysSinceEpoch (year : Int) : Int :=
  let y := u64 (year - absoluteZeroYear)
  -- Add in days from 400-year cycles.
  let n := y / 400
  let y := y - 400 * n
  let d := daysPer400Years * n
  -- Add in 100-year cycles.
  let n := y / 100
  let y := y - 100 * n
  let d := d + daysPer100Years * n
  -- Add in 4-year cycles.
  let n := y / 4
  let y := y - 4 * n
  let d := d + daysPer4Years * n
  -- Add in non-leap years.
  d + 365 * y

/-- Go `Date` for a location of fixed offset `offset` (0 for `UTC`).  The day
count and the absolute time are `uint64` sums and products, which wrap as a
whole; the result is converted to `int64`. -/
def Date (year month day hour min sec nsec offset : Int) : Time :=
  -- Normalize month, overflowing into year.
  let (year, m) := norm year (month - 1) 12
  let month := m + 1
  -- Normalize nsec, sec, min, hour, overflowing into day.
  let (sec, nsec) := norm sec nsec 1000000000
  let (min, sec) := norm min sec 60
  let (hour, min) := norm hour min 60
  let (day, hour) := norm day hour 24
  -- Compute days since the absolute epoch.
  let d := daysSinceEpoch year
  -- Add in days before this month.
  let d := d + daysBefore (month - 1)
  let d := if isLeap year && month ≥ 3 then d + 1 else d
  -- Add in days before today.
  let d := d + (day - 1)
  -- Add in time elapsed today.
  let abs := u64 (d * secondsPerDay + (hour * secondsPerHour + min * secondsPerMinute + sec))
  { sec := i64 (i64 abs + absoluteToInternal - offset), nsec := nsec, offset := offset }

end time

/-! ## `time`: layouts, formatting -/

namespace time

/-- The layout elements (`std...` codes) the layouts of this program are made of. -/
inductive Std where
  | stdLongYear         -- "2006"
  | stdZeroMonth        -- "01"
  | stdZeroDay          -- "02"
  | stdHour             -- "15"
  | stdZeroMinute       -- "04"
  | stdZeroSecond       -- "05"
  | stdFracSecond9      -- ".999999999"
  | stdISO8601ColonTZ   -- "Z07:00"
deriving DecidableEq, Repr

/-- One step of Go `nextStdChunk`: the literal text before the next layout
element, the element, and the layout text that spells it. -/
structure Chunk where
  pfx : List Nat
  std : Std
  stdstr : List Nat
deriving DecidableEq, Repr

/-- A layout as the successive calls of `nextStdChunk` cut it: the chunks up to
the last layout element, and the literal text after it. -/
structure Layout where
  chunks : List Chunk
  suffix : List Nat
deriving DecidableEq, Repr

/-- The layout string a chunked layout stands for. -/
def Layout.text (l : Layout) : List Nat :=
  (l.chunks.map (fun c => c.pfx ++ c.stdstr)).flatten ++ l.suffix

/-- Chunks of the date and time of day, `2006-01-02T15:04:05`, after the literal
text `lit`. -/
def dateTimeChunks (lit : List Nat) : List Chunk :=
  [ ⟨lit, Std.stdLongYear, ascii "2006"⟩,
    ⟨ascii "-", Std.stdZeroMonth, ascii "01"⟩,
    ⟨ascii "-", Std.stdZeroDay, ascii "02"⟩,
    ⟨ascii "T", Std.stdHour, ascii "15"⟩,
    ⟨ascii ":", Std.stdZeroMinute, ascii "04"⟩,
    ⟨ascii ":", Std.stdZeroSecond, ascii "05"⟩ ]

/-- The layout the fallback of `Time.UnmarshalJSON` passes to `time.Parse`, with its
quotes: `"2006-01-02T15:04:05"`. -/
def quotedNoOffsetLayout : Layout :=
  { chunks := dateTimeChunks [34]
    suffix := [34] }

/-- The layout `time.Time.UnmarshalJSON` parses with, the quoted `RFC3339`:
`"2006-01-02T15:04:05Z07:00"`. -/
def quotedRFC3339 : Layout :=
  { chunks := dateTimeChunks [34] ++ [⟨[], Std.stdISO8601ColonTZ, ascii "Z07:00"⟩]
    suffix := [34] }

/-- The layout `time.Time.MarshalJSON` formats with, `RFC3339Nano`:
`2006-01-02T15:04:05.999999999Z07:00`. -/
def RFC3339Nano : Layout :=
  { chunks := dateTimeChunks [] ++
      [⟨[], Std.stdFracSecond9, ascii ".999999999"⟩, ⟨[], Std.stdISO8601ColonTZ, ascii "Z07:00"⟩]
    suffix := [] }

/-- Decimal digits of `u`, most significant first, as the loop of `appendInt`
assembles them in its 20-byte buffer. -/
def decimal : Nat → Nat → List Nat
  | 0, _ => []
  | fuel + 1, u => if u ≥ 10 then decimal fuel (u / 10) ++ [48 + u % 10] else [48 + u]

/-- Go `appendInt`: the decimal form of `x`, zero-padded to `width`, with a
leading minus sign for a negative `x`. -/
def appendInt (b : List Nat) (x : Int) (width : Nat) : List Nat :=
  let b1 := if x < 0 then b ++ [45] else b
  let u := (u64 (if x < 0 then -x else x)).toNat
  let ds := decimal 20 u
  b1 ++ List.replicate (width - ds.length) 48 ++ ds

/-- The nine decimal digits `formatNano` writes into its buffer, most
significant first. -/
def nanoDigits : Nat → Nat → List Nat
  | 0, _ => []
  | k + 1, u => nanoDigits k (u / 10) ++ [48 + u % 10]

/-- Go `formatNano(b, nanosec, n, trim)` with `trim` set, as `stdFracSecond9`
calls it: the first `n` of the nine digits without their trailing zeros, after
a period; nothing at all when no digit is left. -/
def formatNano (b : List Nat) (nanosec : Int) (n : Nat) : List Nat :=
  let buf := nanoDigits 9 (u64 nanosec).toNat
  let ds := (buf.take (min n 9)).rdropWhile (fun c => c == 48)
  if ds.isEmpty then b else b ++ [46] ++ ds

/-- What `AppendFormat` appends for one layout element. -/
def formatStd (b : List Nat) (t : Time) : Std → List Nat
  | Std.stdLongYear => appendInt b (absDate t.abs true).1 4
  | Std.stdZeroMonth => appendInt b (absDate t.abs true).2.1 2
  | Std.stdZeroDay => appendInt b (absDate t.abs true).2.2.1 2
  | Std.stdHour => appendInt b (absClock t.abs).1 2
  | Std.stdZeroMinute => appendInt b (absClock t.abs).2.1 2
  | Std.stdZeroSecond => appendInt b (absClock t.abs).2.2 2
  | Std.stdFracSecond9 => formatNano b t.Nanosecond 9
  | Std.stdISO8601ColonTZ =>
    -- Ugly special case.  We cheat and take the "Z" variants
    -- to mean "the time zone as formatted for ISO 8601".
    if t.offset == 0 then b ++ [90]
    else
      let zone := Int.tdiv t.offset 60 -- convert to minutes
      let b1 := if zone < 0 then b ++ [45] else b ++ [43]
      let zone := if zone < 0 then -zone else zone
      let b2 := appendInt b1 (Int.tdiv zone 60) 2
      appendInt (b2 ++ [58]) (Int.tmod zone 60) 2

/-- The loop of Go `Time.AppendFormat` over the chunks of the layout. -/
def appendChunks (t : Time) : List Nat → List Chunk → List Nat
  | b, [] => b
  | b, c :: cs => appendChunks t (formatStd (b ++ c.pfx) t c.std) cs

/-- Go `Time.AppendFormat`. -/
def Time.AppendFormat (t : Time) (b : List Nat) (layout : Layout) : List Nat :=
  appendChunks t b layout.chunks ++ layout.suffix

/-- Go `Time.MarshalJSON`: the time in `RFC3339Nano` between quotes, or an error
for a year outside `[0, 9999]`. -/
def Time.MarshalJSON (t : Time) : Except String (List Nat) :=
  if t.Year < 0 ∨ t.Year ≥ 10000 then
    Except.error "Time.MarshalJSON: year outside of range [0,9999]"
  else
    Except.ok (t.AppendFormat [34] RFC3339Nano ++ [34])

end time

/-! ## `time`: parsing -/

namespace time

/-- Go `ParseError`: the layout, the value that was being parsed, the layout
element and the rest of the value at which parsing stopped, and an optional
message. -/
structure ParseError where
  Layout : List Nat
  Value : List Nat
  LayoutElem : List Nat
  ValueElem : List Nat
  Message : List Nat
deriving DecidableEq, Repr

/-- Go `isDigit(s, i)`: is there a decimal digit at index `i` of `s`? -/
def isDigit (s : List Nat) (i : Nat) : Bool :=
  match s.get? i with
  | none => false
  | some c => 48 ≤ c && c ≤ 57

/-- Go `getnum`: a one- or two-digit number at the start of `s` and the rest of
`s`; with `fixed` set two digits are required.  The flag is false for `errBad`. -/
def getnum (s : List Nat) (fixed : Bool) : Int × List Nat × Bool :=
  if !isDigit s 0 then (0, s, false)
  else if !isDigit s 1 then
    if fixed then (0, s, false)
    else ((s.headD 0 : Int) - 48, s.drop 1, true)
  else (((s.headD 0 : Int) - 48) * 10 + ((s.getD 1 0 : Int) - 48), s.drop 2, true)

/-- Go `leadingInt`, started with `x`: the leading decimal digits of `s` as a
number and the rest of `s`; `none` is `errLeadingInt`, the error for a number
that does not fit an `int64`. -/
def leadingInt : Int → List Nat → Option (Int × List Nat)
  | x, [] => some (x, [])
  | x, c :: cs =>
    if c < 48 ∨ c > 57 then some (x, c :: cs)
    else if x > 9223372036854775807 / 10 then none
    else
      let x1 := i64 (x * 10 + (c : Int) - 48)
      if x1 < 0 then none else leadingInt x1 cs

/-- The number a string of decimal digits spells after the digits that spell
`x`. -/
def digitsValue (x : Nat) (ds : List Nat) : Nat :=
  ds.foldl (fun acc c => acc * 10 + (c - 48)) x

/-- Go `atoi`: a whole string as a decimal number with an optional sign; `none`
is `atoiError`. -/
def atoi (s : List Nat) : Option Int :=
  let neg := s.head? == some 45
  let s1 := if s.head? == some 45 || s.head? == some 43 then s.tail else s
  match leadingInt 0 s1 with
  | none => none
  | some (q, rem) =>
    if !rem.isEmpty then none
    else some (if neg then -q else q)

/-- Go `cutspace`: `s` without its leading spaces. -/
def cutspace (s : List Nat) : List Nat := s.dropWhile (fun c => c == 32)

/-- The loop of Go `skip`; `inRun` says that the spaces at the head of the
prefix belong to a run of spaces `cutspace` has already matched. -/
def skipLoop : Bool → List Nat → List Nat → List Nat × Bool
  | _, value, [] => (value, true)
  | inRun, value, p :: ps =>
    if p == 32 then
      if inRun then skipLoop true value ps
      else if !value.isEmpty && value.head? != some 32 then (value, false)
      else skipLoop true (cutspace value) ps
    else if value.isEmpty || value.head? != some p then (value, false)
    else skipLoop false value.tail ps

/-- Go `skip`: removes `pfx` from the front of `value` (a run of spaces in the
prefix matches any run of spaces); the flag is false for `errBad`. -/
def skip (value pfx : List Nat) : List Nat × Bool := skipLoop false value pfx

/-- Go `parseNanoseconds`: the fraction `value[0:nbytes]`, a period and digits,
as nanoseconds.  The result is the number, the range error string (empty for
none) and whether there was no error. -/
def parseNanoseconds (value : List Nat) (nbytes : Nat) : Int × List Nat × Bool :=
  if value.head? != some 46 then (0, [], false)
  else
    match atoi ((value.take nbytes).drop 1) with
    | none => (0, [], false)
    | some ns =>
      if ns < 0 ∨ 1000000000 ≤ ns then (ns, ascii "fractional second", true)
      else
        -- We need nanoseconds, which means scaling by the number
        -- of missing digits in the format, maximum length 10. If it's
        -- longer than 10, we won't scale.
        (ns * 10 ^ (10 - nbytes), [], true)

/-- The values `parse` collects while it walks the layout: the fields of the
time being constructed, `z` set for `z = UTC`, and `zoneOffset`, -1 until an
offset has been read. -/
structure Fields where
  year : Int
  month : Int
  day : Int
  hour : Int
  min : Int
  sec : Int
  nsec : Int
  z : Bool
  zoneOffset : Int
deriving DecidableEq, Repr

/-- The initial values: January 1 of year 0, no zone. -/
def Fields.init : Fields :=
  { year := 0, month := 1, day := 1, hour := 0, min := 0, sec := 0, nsec := 0,
    z := false, zoneOffset := -1 }

/-- Outcome of one layout element: the fields, the rest of the value, the
range error string (empty for none) and whether there was no error.  After a
range error or an error `parse` returns at once, so the fields of such an
outcome are of no account. -/
structure StepResult where
  fields : Fields
  value : List Nat
  rangeErrString : List Nat
  ok : Bool
deriving DecidableEq, Repr

/-- Number of bytes of a fraction of a second at the head of `value`, period
included, when the layout has none: the period, one digit and the digits that
follow. -/
def fracLen (value : List Nat) : Nat :=
  2 + ((value.drop 2).takeWhile (fun c => 48 ≤ c && c ≤ 57)).length

/-- The body of the loop of Go `parse` for one layout element; `next` is the
element that follows in the layout, if any. -/
def parseStd (std : Std) (next : Option Std) (f : Fields) (value : List Nat) : StepResult :=
  match std with
  | Std.stdLongYear =>
    if value.length < 4 || !isDigit value 0 then ⟨f, value, [], false⟩
    else
      match atoi (value.take 4) with
      | none => ⟨{ f with year := 0 }, value.drop 4, [], false⟩
      | some y => ⟨{ f with year := y }, value.drop 4, [], true⟩
  | Std.stdZeroMonth =>
    let (month, value1, ok) := getnum value true
    ⟨{ f with month := month }, value1,
      if month ≤ 0 ∨ 12 < month then ascii "month" else [], ok⟩
  | Std.stdZeroDay =>
    let (day, value1, ok) := getnum value true
    ⟨{ f with day := day }, value1, if day < 0 then ascii "day" else [], ok⟩
  | Std.stdHour =>
    let (hour, value1, ok) := getnum value false
    ⟨{ f with hour := hour }, value1,
      if hour < 0 ∨ 24 ≤ hour then ascii "hour" else [], ok⟩
  | Std.stdZeroMinute =>
    let (min, value1, ok) := getnum value true
    ⟨{ f with min := min }, value1,
      if min < 0 ∨ 60 ≤ min then ascii "minute" else [], ok⟩
  | Std.stdZeroSecond =>
    let (sec, value1, ok) := getnum value true
    if sec < 0 ∨ 60 ≤ sec then ⟨{ f with sec := sec }, value1, ascii "second", ok⟩
    -- Special case: do we have a fractional second but no
    -- fractional second in the format?
    else if value1.length ≥ 2 && value1.head? == some 46 && isDigit value1 1 then
      if next == some Std.stdFracSecond9 then
        -- Fractional second in the layout; proceed normally
        ⟨{ f with sec := sec }, value1, [], ok⟩
      else
        -- No fractional second in the layout but we have one in the input.
        let n := fracLen value1
        let (nsec, rangeErrString, ok1) := parseNanoseconds value1 n
        ⟨{ f with sec := sec, nsec := nsec }, value1.drop n, rangeErrString, ok1⟩
    else ⟨{ f with sec := sec }, value1, [], ok⟩
  | Std.stdFracSecond9 =>
    if value.length < 2 || value.head? != some 46 || !isDigit value 1 then
      -- Fractional second omitted.
      ⟨f, value, [], true⟩
    else
      -- Take any number of digits, even more than asked for,
      -- because it is what the stdSecond case would do.
      let i := (((value.drop 1).take 9).takeWhile (fun c => 48 ≤ c && c ≤ 57)).length
      let (nsec, rangeErrString, ok) := parseNanoseconds value (1 + i)
      ⟨{ f with nsec := nsec }, value.drop (1 + i), rangeErrString, ok⟩
  | Std.stdISO8601ColonTZ =>
    if value.length ≥ 1 && value.head? == some 90 then
      ⟨{ f with z := true }, value.drop 1, [], true⟩
    else if value.length < 6 then ⟨f, value, [], false⟩
    else if value.get? 3 != some 58 then ⟨f, value, [], false⟩
    else
      let sign := value.headD 0
      let value1 := value.drop 6
      match atoi ((value.drop 1).take 2) with
      | none => ⟨f, value1, [], false⟩
      | some hr =>
        match atoi ((value.drop 4).take 2) with
        | none => ⟨f, value1, [], false⟩
        | some mm =>
          -- the seconds are "00"
          let zoneOffset := (hr * 60 + mm) * 60 + 0 -- offset is in seconds
          if sign == 43 then ⟨{ f with zoneOffset := zoneOffset }, value1, [], true⟩
          else if sign == 45 then ⟨{ f with zoneOffset := -zoneOffset }, value1, [], true⟩
          else ⟨{ f with zoneOffset := zoneOffset }, value1, [], false⟩

/-- The loop of Go `parse` over the chunks of the layout: skip the literal
text, read the element, stop at the first range error or error. -/
def parseChunks (alayout avalue : List Nat) :
    List Chunk → Fields → List Nat → Except ParseError (Fields × List Nat)
  | [], f, value => Except.ok (f, value)
  | c :: cs, f, value =>
    match skip value c.pfx with
    | (value1, false) => Except.error ⟨alayout, avalue, c.pfx, value1, []⟩
    | (value1, true) =>
      let r := parseStd c.std (cs.head?.map Chunk.std) f value1
      if !r.rangeErrString.isEmpty then
        Except.error ⟨alayout, avalue, c.stdstr, r.value,
          ascii ": " ++ r.rangeErrString ++ ascii " out of range"⟩
      else if !r.ok then Except.error ⟨alayout, avalue, c.stdstr, r.value, []⟩
      else parseChunks alayout avalue cs r.fields r.value

/-- Go `Parse(layout, value)`: on success the time and no error, on failure the
zero time and a `ParseError`. -/
def Parse (layout : Layout) (value : List Nat) : Time × Option ParseError :=
  match parseChunks layout.text value layout.chunks Fields.init value with
  | Except.error e => (Time.zero, some e)
  | Except.ok (f, value1) =>
    -- the text after the last layout element
    match skip value1 layout.suffix with
    | (value2, false) => (Time.zero, some ⟨layout.text, value, layout.suffix, value2, []⟩)
    | (value2, true) =>
      if value2.length != 0 then
        (Time.zero, some ⟨layout.text, value, [], value2, ascii ": extra text: " ++ value2⟩)
      -- Validate the day of the month.
      else if f.day < 1 ∨ f.day > daysIn f.month f.year then
        (Time.zero, some ⟨layout.text, value, [], value2, ascii ": day out of range"⟩)
      else if f.z then
        (Date f.year f.month f.day f.hour f.min f.sec f.nsec 0, none)
      else if f.zoneOffset != -1 then
        let t := Date f.year f.month f.day f.hour f.min f.sec f.nsec 0
        -- t.addSec(-zoneOffset), then the location with that offset
        ({ sec := i64 (t.sec - f.zoneOffset), nsec := t.nsec, offset := f.zoneOffset }, none)
      else
        -- Otherwise, fall back to default.
        (Date f.year f.month f.day f.hour f.min f.sec f.nsec 0, none)

/-- Go `time.Time.UnmarshalJSON`: JSON `null` is ignored; any other input is
parsed as a quoted `RFC3339` time, and the receiver becomes what `Parse`
returns, also when that is an error. -/
def Time.UnmarshalJSON (t : Time) (data : List Nat) : Time × Option ParseError :=
  if data = ascii "null" then (t, none)
  else Parse quotedRFC3339 data

end time

/-! ## `params.go` -/

/-- Go `Time`, a `time.Time` that provides a custom `UnmarshalJSON` method; `toTime`
is the embedded `time.Time`. -/
structure Time where
  toTime : time.Time
deriving DecidableEq, Repr

/-- Go `(*Time).UnmarshalJSON`: the receiver after the call and the error returned. -/
def Time.UnmarshalJSON (t : Time) (data : List Nat) : Time × Option time.ParseError :=
  match time.Time.UnmarshalJSON t.toTime data with
  | (t1, none) => (⟨t1⟩, none)
  | (_, some _) =>
    let r := time.Parse time.quotedNoOffsetLayout data
    (⟨r.1⟩, r.2)

/-- Go `PasswordCredentials`. -/
structure PasswordCredentials where
  Username : String
  Password : String
deriving DecidableEq, Repr

/-- Go `Tenant`. -/
structure Tenant where
  ID : String
  Name : String
  Description : String
  Enabled : Bool
deriving DecidableEq, Repr

/-- Go `Token`; a `nil` pointer is `none`. -/
structure Token where
  ID : String
  IssuedAt : Option Time
  Expires : Option Time
  Tenant : Option Tenant
deriving DecidableEq, Repr

/-- Go `Auth`. -/
structure Auth where
  TenantName : String
  TenantID : String
  PasswordCredentials : Option PasswordCredentials
  Token : Option Token
deriving DecidableEq, Repr

/-- Go `TokensBody`. -/
structure TokensBody where
  Auth : Auth
deriving DecidableEq, Repr

/-- Go `Domain`. -/
structure Domain where
  ID : String
  Name : String
deriving DecidableEq, Repr

/-- Go `User`. -/
structure User where
  ID : String
  Name : String
  Username : String
  Domain : Option Domain
  Password : String
deriving DecidableEq, Repr

/-- Go `TokenV3`; for `Methods`, `none` is the nil slice. -/
structure TokenV3 where
  IssuedAt : Option Time
  Methods : Option (List String)
  ExpiresAt : Option Time
  User : User
deriving DecidableEq, Repr

/-- Go `AuthTokensResponse`. -/
structure AuthTokensResponse where
  SubjectToken : String
  Token : TokenV3
deriving DecidableEq, Repr

/-- JSON encoding of a `Time`: the promoted `time.Time.MarshalJSON`. -/
def marshalTime (t : keystone.Time) : Except String JSON :=
  match time.Time.MarshalJSON t.toTime with
  | Except.error e => Except.error e
  | Except.ok b => Except.ok (JSON.raw b)

/-- JSON encoding of a `PasswordCredentials`. -/
def marshalPasswordCredentials (p : keystone.PasswordCredentials) : Except String JSON :=
  encodeStruct
    [ stringField "Username" "username" p.Username,
      stringField "Password" "password" p.Password ]

/-- JSON encoding of a `Tenant`. -/
def marshalTenant (t : keystone.Tenant) : Except String JSON :=
  encodeStruct
    [ stringField "ID" "id" t.ID,
      stringField "Name" "name" t.Name,
      stringField "Description" "description" t.Description,
      boolField "Enabled" "enabled" t.Enabled ]

/-- JSON encoding of a `Token`. -/
def marshalToken (t : keystone.Token) : Except String JSON :=
  encodeStruct
    [ stringField "ID" "id,omitempty" t.ID,
      ptrField "IssuedAt" "issued_at,omitempty" marshalTime t.IssuedAt,
      ptrField "Expires" "expires,omitempty" marshalTime t.Expires,
      ptrField "Tenant" "tenant,omitempty" marshalTenant t.Tenant ]

/-- JSON encoding of an `Auth`. -/
def marshalAuth (a : keystone.Auth) : Except String JSON :=
  encodeStruct
    [ stringField "TenantName" "tenantName,omitempty" a.TenantName,
      stringField "TenantID" "tenantId,omitempty" a.TenantID,
      ptrField "PasswordCredentials" "passwordCredentials,omitempty"
        marshalPasswordCredentials a.PasswordCredentials,
      ptrField "Token" "token,omitempty" marshalToken a.Token ]

/-- JSON encoding of a `TokensBody`, the body of the V2 login request. -/
def marshalTokensBody (b : keystone.TokensBody) : Except String JSON :=
  encodeStruct [ structField "Auth" "auth" (marshalAuth b.Auth) ]

/-- JSON encoding of a `Domain`. -/
def marshalDomain (d : keystone.Domain) : Except String JSON :=
  encodeStruct
    [ stringField "ID" "id,omitempty" d.ID,
      stringField "Name" "name:omitempty" d.Name ]

/-- JSON encoding of a `User`. -/
def marshalUser (u : keystone.User) : Except String JSON :=
  encodeStruct
    [ stringField "ID" "id,omitempty" u.ID,
      stringField "Name" "name,omitempty" u.Name,
      stringField "Username" "username,omitemtpy" u.Username,
      ptrField "Domain" "domain,omitempty" marshalDomain u.Domain,
      stringField "Password" "password,omitempty" u.Password ]

/-- JSON encoding of a `TokenV3`. -/
def marshalTokenV3 (t : keystone.TokenV3) : Except String JSON :=
  encodeStruct
    [ ptrField "IssuedAt" "issued_at,omitempty" marshalTime t.IssuedAt,
      stringsField "Methods" "methods,omitempty" t.Methods,
      ptrField "ExpiresAt" "expires_at,omitempty" marshalTime t.ExpiresAt,
      structField "User" "user" (marshalUser t.User) ]

/-- JSON encoding of an `AuthTokensResponse`, the body of the V3 login
response; the field `SubjectToken` has no tag. -/
def marshalAuthTokensResponse (r : keystone.AuthTokensResponse) : Except String JSON :=
  encodeStruct
    [ stringField "SubjectToken" "" r.SubjectToken,
      structField "Token" "token" (marshalTokenV3 r.Token) ]

/-- Keys of the fields of `Domain`, in declaration order. -/
def domainKeys : List String :=
  [fieldKey "ID" "id,omitempty", fieldKey "Name" "name:omitempty"]

/-- Decoding of one member of a JSON object into a `Domain`; the second
component is the first error recorded so far. -/
def decodeDomainMember (d : keystone.Domain × Option String) (m : String × JSON) :
    keystone.Domain × Option String :=
  match findField domainKeys m.1 with
  | some 0 =>
    let r := decodeString m.2 d.1.ID
    ({ d.1 with ID := r.1 }, firstError d.2 r.2)
  | some 1 =>
    let r := decodeString m.2 d.1.Name
    ({ d.1 with Name := r.1 }, firstError d.2 r.2)
  | _ => d

/-- Decoding of a JSON value into a `Domain` (`json.Unmarshal`): the members
of an object are decoded in turn, `null` changes nothing, any other value is an
`UnmarshalTypeError`. -/
def unmarshalDomain (v : JSON) (old : keystone.Domain) : keystone.Domain × Option String :=
  match v with
  | JSON.obj ms => ms.foldl decodeDomainMember (old, none)
  | JSON.null => (old, none)
  | _ => (old, some "json: cannot unmarshal value into Go value of type keystone.Domain")

/-- Keys of the fields of `User`, in declaration order. -/
def userKeys : List String :=
  [ fieldKey "ID" "id,omitempty", fieldKey "Name" "name,omitempty",
    fieldKey "Username" "username,omitemtpy", fieldKey "Domain" "domain,omitempty",
    fieldKey "Password" "password,omitempty" ]

/-- Decoding of one member of a JSON object into a `User`.  For the pointer
field `Domain`, `null` sets the pointer to nil; any other value is decoded into
the `Domain` pointed to, a new one when the pointer is nil. -/
def decodeUserMember (u : keystone.User × Option String) (m : String × JSON) :
    keystone.User × Option String :=
  match findField userKeys m.1 with
  | some 0 =>
    let r := decodeString m.2 u.1.ID
    ({ u.1 with ID := r.1 }, firstError u.2 r.2)
  | some 1 =>
    let r := decodeString m.2 u.1.Name
    ({ u.1 with Name := r.1 }, firstError u.2 r.2)
  | some 2 =>
    let r := decodeString m.2 u.1.Username
    ({ u.1 with Username := r.1 }, firstError u.2 r.2)
  | some 3 =>
    match m.2 with
    | JSON.null => ({ u.1 with Domain := none }, u.2)
    | v =>
      let r := unmarshalDomain v (u.1.Domain.getD ⟨"", ""⟩)
      ({ u.1 with Domain := some r.1 }, firstError u.2 r.2)
  | some 4 =>
    let r := decodeString m.2 u.1.Password
    ({ u.1 with Password := r.1 }, firstError u.2 r.2)
  | _ => u

/-- Decoding of a JSON value into a `User` (`json.Unmarshal`). -/
def unmarshalUser (v : JSON) (old : keystone.User) : keystone.User × Option String :=
  match v with
  | JSON.obj ms => ms.foldl decodeUserMember (old, none)
  | JSON.null => (old, none)
  | _ => (old, some "json: cannot unmarshal value into Go value of type keystone.User")

/-- Go `AuthTokensResponse.SetHeader`: the header map after the call. -/
def AuthTokensResponse.SetHeader (resp : AuthTokensResponse) (h : Header) : Header :=
  h.Set subjectTokenHeader resp.SubjectToken

/-- A decoder that tries the two timestamp formats in the other order: the
no-offset layout first, the offset-aware decoding only when that fails. -/
def Time.UnmarshalJSONFallbackFirst (t : Time) (data : List Nat) :
    Time × Option time.ParseError :=
  match time.Parse time.quotedNoOffsetLayout data with
  | (t1, none) => (⟨t1⟩, none)
  | (_, some _) =>
    let r := time.Time.UnmarshalJSON t.toTime data
    (⟨r.1⟩, r.2)

/-- The quoted text `"YYYY-MM-DDTHH:MM:SS"` of a date and a time of day: the
numbers in decimal, zero-padded to four digits for the year and to two for the
others. -/
def noOffsetText (year month day hour min sec : Int) : List Nat :=
  let b := time.appendInt [34] year 4
  let b := time.appendInt (b ++ [45]) month 2
  let b := time.appendInt (b ++ [45]) day 2
  let b := time.appendInt (b ++ [84]) hour 2
  let b := time.appendInt (b ++ [58]) min 2
  let b := time.appendInt (b ++ [58]) sec 2
  b ++ [34]

/-! ## `config` -/

namespace config

/-- Go `config.Config`, as the tests build it. -/
structure Config where
  MongoAddr : String
  APIAddr : String
deriving DecidableEq, Repr

/-- Modelled from the spec: the names of the required fields, in the order the
error message of the tests lists them. -/
def requiredFields : List String := ["mongo-addr", "api-addr"]

/-- Modelled from the spec: the value a configuration file gives a key; the
file's content is the list of its key/value entries. -/
def lookup (content : List (String × String)) (key : String) : Option String :=
  (content.find? (fun e => e.1 == key)).map Prod.snd

/-- Modelled from the spec: the required fields the content has no entry for. -/
def missingFields (content : List (String × String)) : List String :=
  requiredFields.filter (fun k => (lookup content k).isNone)

/-- Modelled from the spec: `config.Read`, whose source is not at hand, on the
content of the file it is given: "a simple key/value file parser with presence
checks".  When required fields are missing the result is a nil configuration
and the error `missing fields <names> in config file`, as the test
`TestValidateConfigError` expects; otherwise the configuration holds the
values of the two fields, as in `TestRead`. -/
def Read (content : List (String × String)) : Option Config × Option String :=
  if missingFields content ≠ [] then
    (none, some ("missing fields " ++ String.intercalate ", " (missingFields content) ++
      " in config file"))
  else
    (some { MongoAddr := (lookup content "mongo-addr").getD ""
            APIAddr := (lookup content "api-addr").getD "" }, none)

end config

/-! ## Facts about the struct encoder -/

theorem mkField_eq (goName tag : String) (k : String) (sk oe : Bool)
    (hk : fieldKey goName tag = k) (hs : (tag == "-") = sk)
    (ho : (tagOptions tag).contains "omitempty" = oe) (e : Bool) (v : Except String JSON) :
    mkField goName tag e v = ⟨k, sk, oe, e, v⟩ := by
  subst hk hs ho; rfl

theorem field_auth (e : Bool) (v : Except String JSON) :
    mkField "Auth" "auth" e v = ⟨"auth", false, false, e, v⟩ :=
  mkField_eq _ _ _ _ _ (by decide) (by decide) (by decide) e v

theorem field_tenantName (e : Bool) (v : Except String JSON) :
    mkField "TenantName" "tenantName,omitempty" e v = ⟨"tenantName", false, true, e, v⟩ :=
  mkField_eq _ _ _ _ _ (by decide) (by decide) (by decide) e v

theorem field_tenantId (e : Bool) (v : Except String JSON) :
    mkField "TenantID" "tenantId,omitempty" e v = ⟨"tenantId", false, true, e, v⟩ :=
  mkField_eq _ _ _ _ _ (by decide) (by decide) (by decide) e v

theorem field_passwordCredentials (e : Bool) (v : Except String JSON) :
    mkField "PasswordCredentials" "passwordCredentials,omitempty" e v =
      ⟨"passwordCredentials", false, true, e, v⟩ :=
  mkField_eq _ _ _ _ _ (by decide) (by decide) (by decide) e v

theorem field_token (e : Bool) (v : Except String JSON) :
    mkField "Token" "token,omitempty" e v = ⟨"token", false, true, e, v⟩ :=
  mkField_eq _ _ _ _ _ (by decide) (by decide) (by decide) e v

theorem field_username (e : Bool) (v : Except String JSON) :
    mkField "Username" "username" e v = ⟨"username", false, false, e, v⟩ :=
  mkField_eq _ _ _ _ _ (by decide) (by decide) (by decide) e v

theorem field_password (e : Bool) (v : Except String JSON) :
    mkField "Password" "password" e v = ⟨"password", false, false, e, v⟩ :=
  mkField_eq _ _ _ _ _ (by decide) (by decide) (by decide) e v

/-- A `PasswordCredentials` always encodes, to an object with its two keys. -/
theorem marshalPasswordCredentials_ok (p : keystone.PasswordCredentials) :
    marshalPasswordCredentials p =
      Except.ok (JSON.obj [("username", JSON.str p.Username), ("password", JSON.str p.Password)]) := by
  simp [marshalPasswordCredentials, stringField, field_username, field_password, encodeStruct,
    encodeMembers, Field.emitted]

/-- The encoding of an `Auth`, by cases on what is set. -/
theorem marshalAuth_eq (a : keystone.Auth) :
    marshalAuth a =
      match (match a.Token with
        | none => Except.ok []
        | some tok =>
          match marshalToken tok with
          | Except.error e => Except.error e
          | Except.ok v => Except.ok [("token", v)]) with
      | Except.error e => Except.error e
      | Except.ok ms => Except.ok (JSON.obj (
          (if a.TenantName = "" then [] else [("tenantName", JSON.str a.TenantName)]) ++
          (if a.TenantID = "" then [] else [("tenantId", JSON.str a.TenantID)]) ++
          (match a.PasswordCredentials with
            | none => []
            | some p => [("passwordCredentials",
                JSON.obj [("username", JSON.str p.Username), ("password", JSON.str p.Password)])]) ++
          ms)) := by
  rcases a with ⟨tn, ti, pc, tok⟩
  simp only [marshalAuth, stringField, ptrField, field_tenantName, field_tenantId,
    field_passwordCredentials, field_token, encodeStruct, encodeMembers, Field.emitted]
  cases tok with
  | none =>
    by_cases h1 : tn = "" <;> by_cases h2 : ti = "" <;> cases pc <;>
      simp [h1, h2, marshalPasswordCredentials_ok]
  | some tok =>
    cases hm : marshalToken tok <;> by_cases h1 : tn = "" <;> by_cases h2 : ti = "" <;>
      cases pc <;> simp [h1, h2, hm, marshalPasswordCredentials_ok]



/-! ## The wire schema -/

/-- C5: after `r.SetHeader(h)` the `X-Subject-Token` entry of the header map is
the single value `r.SubjectToken`, whatever it held before, and every other
entry is the one `h` had. -/
theorem C5_SetHeader_sets_only_subject_token (r : AuthTokensResponse) (h : Header)
    (k : List Nat) :
    r.SetHeader h k =
      if k = ascii "X-Subject-Token" then some [r.SubjectToken] else h k := by
  unfold AuthTokensResponse.SetHeader Header.Set
  have hc : CanonicalMIMEHeaderKey subjectTokenHeader = ascii "X-Subject-Token" := by decide
  rw [hc]

/-- C6 (failing input): the body encoded for the response with subject token
`tok-1` and user `u1`/`alice` carries the token under the key `SubjectToken`,
and the body of the response that differs only by the subject token `tok-2`
is a different one. -/
theorem C6_body_carries_subject_token :
    marshalAuthTokensResponse ⟨"tok-1", ⟨none, none, none, ⟨"u1", "alice", "", none, ""⟩⟩⟩ =
      Except.ok (JSON.obj
        [ ("SubjectToken", JSON.str "tok-1"),
          ("token", JSON.obj
            [("user", JSON.obj
              [("id", JSON.str "u1"), ("name", JSON.str "alice"), ("username", JSON.str "")])]) ]) ∧
    marshalAuthTokensResponse ⟨"tok-1", ⟨none, none, none, ⟨"u1", "alice", "", none, ""⟩⟩⟩ ≠
      marshalAuthTokensResponse ⟨"tok-2", ⟨none, none, none, ⟨"u1", "alice", "", none, ""⟩⟩⟩ := by
  have h1 : marshalAuthTokensResponse ⟨"tok-1", ⟨none, none, none, ⟨"u1", "alice", "", none, ""⟩⟩⟩ =
      Except.ok (JSON.obj
        [ ("SubjectToken", JSON.str "tok-1"),
          ("token", JSON.obj
            [("user", JSON.obj
              [("id", JSON.str "u1"), ("name", JSON.str "alice"), ("username", JSON.str "")])]) ]) := by
    rfl
  have h2 : marshalAuthTokensResponse ⟨"tok-2", ⟨none, none, none, ⟨"u1", "alice", "", none, ""⟩⟩⟩ =
      Except.ok (JSON.obj
        [ ("SubjectToken", JSON.str "tok-2"),
          ("token", JSON.obj
            [("user", JSON.obj
              [("id", JSON.str "u1"), ("name", JSON.str "alice"), ("username", JSON.str "")])]) ]) := by
    rfl
  refine ⟨h1, ?_⟩
  rw [h1, h2]
  intro h
  injection h with h
  injection h with h
  injection h with h _
  injection h with _ h
  injection h with h
  exact absurd h (by decide)

/-- C7: the object a V2 login body holds under `auth` has the key
`passwordCredentials` exactly when `PasswordCredentials` is set, `token`
exactly when `Token` is set, `tenantName` exactly when `TenantName` is not
empty, `tenantId` exactly when `TenantID` is not empty, and no other key.  The
encoding fails only when the token is set and does not encode (a timestamp
whose year is outside `[0, 9999]`). -/
theorem C7_auth_object_keys (a : Auth) :
    match marshalTokensBody ⟨a⟩ with
    | Except.ok body =>
      ∃ o, body = JSON.obj [("auth", o)] ∧ ∀ k, k ∈ o.keys ↔
        ((k = "passwordCredentials" ∧ a.PasswordCredentials ≠ none) ∨
         (k = "token" ∧ a.Token ≠ none) ∨
         (k = "tenantName" ∧ a.TenantName ≠ "") ∨
         (k = "tenantId" ∧ a.TenantID ≠ ""))
    | Except.error e => ∃ tok, a.Token = some tok ∧ marshalToken tok = Except.error e := by
  rcases a with ⟨tn, ti, pc, tok⟩
  simp only [marshalTokensBody, structField, field_auth, encodeStruct, encodeMembers,
    Field.emitted, marshalAuth_eq]
  cases tok with
  | none =>
    by_cases h1 : tn = "" <;> by_cases h2 : ti = "" <;> cases pc <;>
      simp [h1, h2, JSON.keys] <;> aesop
  | some tok =>
    cases hm : marshalToken tok <;> by_cases h1 : tn = "" <;> by_cases h2 : ti = "" <;>
      cases pc <;> simp [h1, h2, JSON.keys] <;> aesop

/-- C8 (failing input): decoding the user object
`{"id": "u1", "name": "alice", "domain": {"id": "d1", "name": "Default"}}`
yields a domain whose `ID` is `d1` and whose `Name` is empty: the value of
`name` is dropped, the key of the field `Name` being `name:omitempty`. -/
theorem C8_domain_name_not_decoded :
    unmarshalUser
      (JSON.obj
        [ ("id", JSON.str "u1"), ("name", JSON.str "alice"),
          ("domain", JSON.obj [("id", JSON.str "d1"), ("name", JSON.str "Default")]) ])
      ⟨"", "", "", none, ""⟩ =
    (⟨"u1", "alice", "", some ⟨"d1", ""⟩, ""⟩, none) := by
  decide

/-- C9: when the content lacks a required field, `config.Read` returns no
configuration and an error that lists the missing ones, `mongo-addr` before
`api-addr`; for the empty content the error is
`missing fields mongo-addr, api-addr in config file`. -/
theorem C9_Read_missing_fields (content : List (String × String))
    (h : config.lookup content "mongo-addr" = none ∨ config.lookup content "api-addr" = none) :
    config.Read content =
      (none, some (
        match config.lookup content "mongo-addr", config.lookup content "api-addr" with
        | none, none => "missing fields mongo-addr, api-addr in config file"
        | none, some _ => "missing fields mongo-addr in config file"
        | some _, none => "missing fields api-addr in config file"
        | some _, some _ => "")) ∧
    config.Read [] = (none, some "missing fields mongo-addr, api-addr in config file") := by
  refine ⟨?_, by decide⟩
  unfold config.Read config.missingFields config.requiredFields
  cases h1 : config.lookup content "mongo-addr" <;> cases h2 : config.lookup content "api-addr" <;>
    simp_all [List.filter] <;> decide

/-- Witness of C9: a content with an entry for `api-addr` only. -/
theorem C9_Read_missing_fields_witness :
    config.Read [("api-addr", "1.2.3.4:5678")] =
      (none, some "missing fields mongo-addr in config file") ∧
    config.Read [] = (none, some "missing fields mongo-addr, api-addr in config file") :=
  C9_Read_missing_fields [("api-addr", "1.2.3.4:5678")] (Or.inl (by decide))

/-! ## `Time.UnmarshalJSON` -/

/-- C1: `Time.UnmarshalJSON` returns what the offset-aware decoding of
`time.Time` yields, with no error, whenever that decoding succeeds; otherwise
its result, time and error, is that of parsing the input with the quoted
layout `"2006-01-02T15:04:05"`. -/
theorem C1_UnmarshalJSON_offset_aware_first (t : Time) (d : List Nat) :
    Time.UnmarshalJSON t d =
      (if (time.Time.UnmarshalJSON t.toTime d).2 = none then
        (⟨(time.Time.UnmarshalJSON t.toTime d).1⟩, none)
      else
        (⟨(time.Parse time.quotedNoOffsetLayout d).1⟩, (time.Parse time.quotedNoOffsetLayout d).2)) ∧
    time.quotedNoOffsetLayout.text = [34] ++ ascii "2006-01-02T15:04:05" ++ [34] := by
  refine ⟨?_, by decide⟩
  unfold Time.UnmarshalJSON
  rcases h : time.Time.UnmarshalJSON t.toTime d with ⟨t1, e⟩
  cases e <;> simp

/-! ## Facts about `parse` -/

namespace time

/-- Every error of the chunk loop carries the value being parsed. -/
theorem parseChunks_error_value (al av : List Nat) (cs : List Chunk) (f : Fields)
    (v : List Nat) (e : ParseError) (h : parseChunks al av cs f v = Except.error e) :
    e.Value = av := by
  induction cs generalizing f v with
  | nil => simp [parseChunks] at h
  | cons c cs ih =>
    unfold parseChunks at h
    rcases hs : skip v c.pfx with ⟨v1, b⟩
    rw [hs] at h
    cases b with
    | false =>
      simp only [Except.error.injEq] at h
      rw [← h]
    | true =>
      simp only at h
      split at h
      · simp only [Except.error.injEq] at h
        rw [← h]
      · split at h
        · simp only [Except.error.injEq] at h
          rw [← h]
        · exact ih _ _ h

/-- Every error of `Parse` carries the value being parsed. -/
theorem Parse_error_value (layout : Layout) (value : List Nat) (e : ParseError)
    (h : (Parse layout value).2 = some e) : e.Value = value := by
  unfold Parse at h
  split at h
  · rename_i e1 he
    simp only [Option.some.injEq] at h
    rw [← h]
    exact parseChunks_error_value _ _ _ _ _ _ he
  · rename_i f v1 he
    rcases hs : skip v1 layout.suffix with ⟨v2, b⟩
    rw [hs] at h
    cases b with
    | false =>
      simp only [Option.some.injEq] at h
      rw [← h]
    | true =>
      simp only at h
      repeat' split at h
      all_goals first
        | (simp only [Option.some.injEq] at h; rw [← h])
        | simp at h

/-- The element that follows in the layout matters to an element only as far
as it is a fraction of a second or not. -/
theorem parseStd_next (std : Std) (n1 n2 : Option Std) (f : Fields) (v : List Nat)
    (h1 : n1 ≠ some Std.stdFracSecond9) (h2 : n2 ≠ some Std.stdFracSecond9) :
    parseStd std n1 f v = parseStd std n2 f v := by
  have e1 : (n1 == some Std.stdFracSecond9) = false := by simpa using h1
  have e2 : (n2 == some Std.stdFracSecond9) = false := by simpa using h2
  cases std <;> simp only [parseStd, e1, e2]

/-- Parsing with one more chunk at the end of the layout: when the shorter
layout is read through, what is left is read by the last chunk. -/
theorem parseChunks_append (al1 al2 av : List Nat) (cs : List Chunk) (c : Chunk)
    (hc : c.std ≠ Std.stdFracSecond9) (f : Fields) (v : List Nat) (f1 : Fields)
    (v1 : List Nat) (h : parseChunks al1 av cs f v = Except.ok (f1, v1)) :
    parseChunks al2 av (cs ++ [c]) f v = parseChunks al2 av [c] f1 v1 := by
  induction cs generalizing f v with
  | nil =>
    simp only [parseChunks, Except.ok.injEq, Prod.mk.injEq] at h
    rw [h.1, h.2]
    rfl
  | cons c0 cs ih =>
    unfold parseChunks at h
    rw [List.cons_append]
    conv_lhs => unfold parseChunks
    rcases hs : skip v c0.pfx with ⟨v0, b⟩
    rw [hs] at h
    cases b with
    | false => simp at h
    | true =>
      simp only at h ⊢
      have hn : parseStd c0.std (Option.map Chunk.std (cs ++ [c]).head?) f v0 =
          parseStd c0.std (Option.map Chunk.std cs.head?) f v0 := by
        cases cs with
        | nil =>
          apply parseStd_next
          · simpa using hc
          · simp
        | cons c1 cs => rfl
      rw [hn]
      split at h
      · simp at h
      · split at h
        · simp at h
        · rename_i h1 h2
          rw [if_neg h1, if_neg h2]
          exact ih _ _ h

end time

namespace time

/-- Skipping the closing quote: the value starts with it. -/
theorem skip_quote (v v2 : List Nat) (h : skip v [34] = (v2, true)) : v = 34 :: v2 := by
  cases v with
  | nil => simp [skip, skipLoop] at h
  | cons c cs =>
    by_cases hc : c = 34
    · subst hc
      simp [skip, skipLoop] at h
      rw [h]
    · simp [skip, skipLoop, hc] at h

/-- When the no-offset layout accepts a value, the date and the time of day
are read up to the closing quote, which is all that is left. -/
theorem Parse_noOffset_ok (d : List Nat) (h : (Parse quotedNoOffsetLayout d).2 = none) :
    ∃ f, parseChunks quotedNoOffsetLayout.text d (dateTimeChunks [34]) Fields.init d =
      Except.ok (f, [34]) := by
  unfold Parse at h
  have hch : quotedNoOffsetLayout.chunks = dateTimeChunks [34] := rfl
  have hsf : quotedNoOffsetLayout.suffix = [34] := rfl
  rw [hch, hsf] at h
  split at h
  · simp at h
  · rename_i f v1 he
    rcases hs : skip v1 [34] with ⟨v2, b⟩
    rw [hs] at h
    cases b with
    | false => simp at h
    | true =>
      simp only at h
      have hv := skip_quote _ _ hs
      split at h
      · simp at h
      · rename_i hl
        have : v2 = [] := by
          cases v2 with
          | nil => rfl
          | cons a l => simp at hl
        subst this
        exact ⟨f, by rw [he, hv]⟩

/-- The offset-aware layout rejects what the no-offset layout accepts. -/
theorem Parse_RFC3339_error_of_noOffset_ok (d : List Nat)
    (h : (Parse quotedNoOffsetLayout d).2 = none) : (Parse quotedRFC3339 d).2 ≠ none := by
  obtain ⟨f, hf⟩ := Parse_noOffset_ok d h
  have hch : quotedRFC3339.chunks =
      dateTimeChunks [34] ++ [⟨[], Std.stdISO8601ColonTZ, ascii "Z07:00"⟩] := rfl
  unfold Parse
  rw [hch, parseChunks_append _ _ _ _ _ (by decide) _ _ _ _ hf]
  simp [parseChunks, skip, skipLoop, parseStd]

/-- The no-offset layout rejects `null`. -/
theorem Parse_noOffset_null : (Parse quotedNoOffsetLayout (ascii "null")).2 ≠ none := by
  decide

/-- No input is accepted both by `time.Time.UnmarshalJSON` and by the no-offset
layout. -/
theorem formats_disjoint (t : Time) (d : List Nat)
    (h1 : (Time.UnmarshalJSON t d).2 = none) : (Parse quotedNoOffsetLayout d).2 ≠ none := by
  intro h2
  unfold Time.UnmarshalJSON at h1
  split at h1
  · rename_i hn
    rw [hn] at h2
    exact Parse_noOffset_null h2
  · exact Parse_RFC3339_error_of_noOffset_ok d h2 h1

end time

/-- C2: for an input that parses under neither format `Time.UnmarshalJSON`
returns an error, and the error carries the input as its `Value`. -/
theorem C2_UnmarshalJSON_error_carries_input (t : Time) (d : List Nat)
    (h1 : (time.Time.UnmarshalJSON t.toTime d).2 ≠ none)
    (h2 : (time.Parse time.quotedNoOffsetLayout d).2 ≠ none) :
    ∃ e, (Time.UnmarshalJSON t d).2 = some e ∧ e.Value = d := by
  unfold Time.UnmarshalJSON
  rcases hs : time.Time.UnmarshalJSON t.toTime d with ⟨t1, e1⟩
  rw [hs] at h1
  cases e1 with
  | none => simp at h1
  | some e1 =>
    simp only
    cases hp : (time.Parse time.quotedNoOffsetLayout d).2 with
    | none => exact absurd hp h2
    | some e => exact ⟨e, rfl, time.Parse_error_value _ _ _ hp⟩

/-- Witness of C2: the input `"2020-02-30T03:04:05"`, a day that does not
exist. -/
theorem C2_UnmarshalJSON_error_carries_input_witness :
    ∃ e, (Time.UnmarshalJSON ⟨time.Time.zero⟩ ([34] ++ ascii "2020-02-30T03:04:05" ++ [34])).2 =
      some e ∧ e.Value = [34] ++ ascii "2020-02-30T03:04:05" ++ [34] :=
  C2_UnmarshalJSON_error_carries_input ⟨time.Time.zero⟩
    ([34] ++ ascii "2020-02-30T03:04:05" ++ [34]) (by decide) (by decide)

/-- C10: no input is accepted both by the offset-aware decoding and by the
no-offset layout, and on every input `Time.UnmarshalJSON` accepts, the decoder
that tries the no-offset layout first returns the same time. -/
theorem C10_formats_disjoint (t : Time) (d : List Nat) :
    ¬ ((time.Time.UnmarshalJSON t.toTime d).2 = none ∧
       (time.Parse time.quotedNoOffsetLayout d).2 = none) ∧
    ((Time.UnmarshalJSON t d).2 = none →
      Time.UnmarshalJSONFallbackFirst t d = Time.UnmarshalJSON t d) := by
  constructor
  · rintro ⟨h1, h2⟩
    exact time.formats_disjoint _ _ h1 h2
  · intro h
    unfold Time.UnmarshalJSON at h ⊢
    unfold Time.UnmarshalJSONFallbackFirst
    rcases hs : time.Time.UnmarshalJSON t.toTime d with ⟨t1, e1⟩
    rcases hp : time.Parse time.quotedNoOffsetLayout d with ⟨t2, e2⟩
    rw [hs] at h
    cases e1 with
    | none =>
      have := time.formats_disjoint t.toTime d (by rw [hs])
      rw [hp] at this
      cases e2 with
      | none => exact absurd rfl this
      | some e2 => rfl
    | some e1 =>
      simp only [hp] at h
      subst h
      rfl

/-- Witness of C10: the input `"2020-01-02T03:04:05"`, which the no-offset
layout accepts. -/
theorem C10_formats_disjoint_witness :
    (Time.UnmarshalJSON ⟨time.Time.zero⟩ ([34] ++ ascii "2020-01-02T03:04:05" ++ [34])).2 = none ∧
    Time.UnmarshalJSONFallbackFirst ⟨time.Time.zero⟩ ([34] ++ ascii "2020-01-02T03:04:05" ++ [34]) =
      Time.UnmarshalJSON ⟨time.Time.zero⟩ ([34] ++ ascii "2020-01-02T03:04:05" ++ [34]) :=
  ⟨by decide,
    (C10_formats_disjoint ⟨time.Time.zero⟩ ([34] ++ ascii "2020-01-02T03:04:05" ++ [34])).2
      (by decide)⟩

namespace time

/-! ## Calendar arithmetic -/

theorem secondsPerDay_eq : secondsPerDay = 86400 := rfl
theorem secondsPerHour_eq : secondsPerHour = 3600 := rfl
theorem secondsPerMinute_eq : secondsPerMinute = 60 := rfl
theorem daysPer400Years_eq : daysPer400Years = 146097 := rfl
theorem daysPer100Years_eq : daysPer100Years = 36524 := rfl
theorem daysPer4Years_eq : daysPer4Years = 1461 := rfl

/-- Quotient of a division, from the two bounds that pin it. -/
theorem ediv_of_bounds (x c a : Int) (hc : 0 < c) (h0 : a * c ≤ x) (h1 : x < (a + 1) * c) :
    x / c = a := by
  have h2 : a ≤ x / c := Int.le_ediv_of_mul_le hc h0
  have h3 : x / c < a + 1 := Int.ediv_lt_of_lt_mul hc h1
  omega

/-- The leap year rule in arithmetic form. -/
theorem isLeap_iff (y : Int) :
    isLeap y = true ↔ y % 4 = 0 ∧ (y % 100 ≠ 0 ∨ y % 400 = 0) := by
  simp [isLeap]

/-- First day of a year given by its place in the cycles of 400, 100 and 4
years. -/
theorem daysSinceEpoch_cycles (Y q n2 n3 y3 : Int)
    (hY : Y + 292277022399 = 400 * q + 100 * n2 + 4 * n3 + y3)
    (hq0 : 0 ≤ q) (hq1 : q < 1000000000)
    (h20 : 0 ≤ n2) (h21 : n2 ≤ 3) (h30 : 0 ≤ n3) (h31 : n3 ≤ 24) (h40 : 0 ≤ y3) (h41 : y3 ≤ 3) :
    daysSinceEpoch Y = 146097 * q + 36524 * n2 + 1461 * n3 + 365 * y3 := by
  simp only [daysSinceEpoch, u64, absoluteZeroYear, daysPer400Years_eq, daysPer100Years_eq,
    daysPer4Years_eq]
  have e0 : (Y - -292277022399) % 18446744073709551616 = 400 * q + 100 * n2 + 4 * n3 + y3 := by
    omega
  rw [e0]
  have e1 : (400 * q + 100 * n2 + 4 * n3 + y3) / 400 = q := by omega
  rw [e1]
  have e2 : (400 * q + 100 * n2 + 4 * n3 + y3 - 400 * q) / 100 = n2 := by omega
  rw [e2]
  have e3 : (400 * q + 100 * n2 + 4 * n3 + y3 - 400 * q - 100 * n2) / 4 = n3 := by omega
  rw [e3]
  ring

/-- Year and day of the year of the absolute time `secs` seconds into day
`yd` of the year at place `(q, n2, n3, y3)` of the cycles. -/
theorem absDate_cycles (q n2 n3 y3 yd secs : Int)
    (hq0 : 0 ≤ q)
    (h20 : 0 ≤ n2) (h21 : n2 ≤ 3) (h30 : 0 ≤ n3) (h31 : n3 ≤ 24) (h40 : 0 ≤ y3) (h41 : y3 ≤ 3)
    (hyd0 : 0 ≤ yd) (hyd1 : yd ≤ 365)
    (hleap : yd = 365 → y3 = 3 ∧ (n3 = 24 → n2 = 3))
    (hs0 : 0 ≤ secs) (hs1 : secs < 86400) :
    absDate ((146097 * q + 36524 * n2 + 1461 * n3 + 365 * y3 + yd) * 86400 + secs) false =
      (400 * q + 100 * n2 + 4 * n3 + y3 + absoluteZeroYear, 0, 0, yd) := by
  simp only [absDate, daysPer400Years_eq, daysPer100Years_eq, daysPer4Years_eq, secondsPerDay_eq,
    Bool.not_false, if_true]
  have e0 : ((146097 * q + 36524 * n2 + 1461 * n3 + 365 * y3 + yd) * 86400 + secs) / 86400 =
      146097 * q + 36524 * n2 + 1461 * n3 + 365 * y3 + yd := by omega
  rw [e0]
  have e1 : (146097 * q + 36524 * n2 + 1461 * n3 + 365 * y3 + yd) / 146097 = q :=
    ediv_of_bounds _ _ _ (by norm_num) (by omega) (by omega)
  rw [e1]
  have e2 : (146097 * q + 36524 * n2 + 1461 * n3 + 365 * y3 + yd - 146097 * q) / 36524 -
      (146097 * q + 36524 * n2 + 1461 * n3 + 365 * y3 + yd - 146097 * q) / 36524 / 4 = n2 := by
    clear e0 e1
    by_cases hR : 1461 * n3 + 365 * y3 + yd = 36524
    · have h3 : n2 = 3 := by omega
      subst h3
      have : (146097 * q + 36524 * 3 + 1461 * n3 + 365 * y3 + yd - 146097 * q) / 36524 = 4 :=
        ediv_of_bounds _ _ _ (by norm_num) (by omega) (by omega)
      rw [this]
      norm_num
    · have : (146097 * q + 36524 * n2 + 1461 * n3 + 365 * y3 + yd - 146097 * q) / 36524 = n2 :=
        ediv_of_bounds _ _ _ (by norm_num) (by omega) (by omega)
      rw [this]
      omega
  rw [e2]
  have e3 : (146097 * q + 36524 * n2 + 1461 * n3 + 365 * y3 + yd - 146097 * q - 36524 * n2) /
      1461 = n3 :=
    ediv_of_bounds _ _ _ (by norm_num) (by omega) (by omega)
  rw [e3]
  have e4 : (146097 * q + 36524 * n2 + 1461 * n3 + 365 * y3 + yd - 146097 * q - 36524 * n2 -
      1461 * n3) / 365 -
      (146097 * q + 36524 * n2 + 1461 * n3 + 365 * y3 + yd - 146097 * q - 36524 * n2 -
      1461 * n3) / 365 / 4 = y3 := by
    clear e0 e1 e2 e3
    by_cases hR : yd = 365
    · have h3 : y3 = 3 := by omega
      subst h3
      have : (146097 * q + 36524 * n2 + 1461 * n3 + 365 * 3 + yd - 146097 * q - 36524 * n2 -
          1461 * n3) / 365 = 4 :=
        ediv_of_bounds _ _ _ (by norm_num) (by omega) (by omega)
      rw [this]
      norm_num
    · have : (146097 * q + 36524 * n2 + 1461 * n3 + 365 * y3 + yd - 146097 * q - 36524 * n2 -
          1461 * n3) / 365 = y3 :=
        ediv_of_bounds _ _ _ (by norm_num) (by omega) (by omega)
      rw [this]
      omega
  rw [e4]
  simp only [Prod.mk.injEq, true_and, and_true]
  omega


/-- Place of a four-digit year in the cycles of 400, 100 and 4 years, which
start with year 1. -/
theorem year_cycles (Y : Int) (h0 : 0 ≤ Y) (h1 : Y ≤ 9999) :
    ∃ q n2 n3 y3 : Int, Y + 292277022399 = 400 * q + 100 * n2 + 4 * n3 + y3 ∧
      0 ≤ q ∧ q < 1000000000 ∧ 0 ≤ n2 ∧ n2 ≤ 3 ∧ 0 ≤ n3 ∧ n3 ≤ 24 ∧ 0 ≤ y3 ∧ y3 ≤ 3 ∧
      (isLeap Y = true ↔ (y3 = 3 ∧ (n3 = 24 → n2 = 3))) := by
  refine ⟨(Y + 292277022399) / 400, (Y + 292277022399) % 400 / 100,
    (Y + 292277022399) % 100 / 4, (Y + 292277022399) % 4, ?_, ?_, ?_, ?_, ?_, ?_, ?_, ?_, ?_, ?_⟩
  any_goals omega
  rw [isLeap_iff]
  omega

/-- Year and day of the year of an absolute time that lies `yd` days into the
four-digit year `Y`. -/
theorem absDate_year (Y yd secs : Int) (h0 : 0 ≤ Y) (h1 : Y ≤ 9999) (hyd0 : 0 ≤ yd)
    (hyd1 : yd < 365 + (if isLeap Y then 1 else 0)) (hs0 : 0 ≤ secs) (hs1 : secs < 86400) :
    absDate ((daysSinceEpoch Y + yd) * 86400 + secs) false = (Y, 0, 0, yd) := by
  obtain ⟨q, n2, n3, y3, hY, hq0, hq1, h20, h21, h30, h31, h40, h41, hl⟩ := year_cycles Y h0 h1
  rw [daysSinceEpoch_cycles Y q n2 n3 y3 hY hq0 hq1 h20 h21 h30 h31 h40 h41]
  have hleap : yd = 365 → y3 = 3 ∧ (n3 = 24 → n2 = 3) := by
    intro h
    by_cases hb : isLeap Y = true
    · exact hl.mp hb
    · rw [if_neg hb] at hyd1
      omega
  rw [absDate_cycles q n2 n3 y3 yd secs hq0 h20 h21 h30 h31 h40 h41 hyd0 (by split at hyd1 <;> omega)
    hleap hs0 hs1]
  simp only [absoluteZeroYear, Prod.mk.injEq, and_true]
  omega

/-- With `full` set `absDate` adds month and day to the year and the day of the
year. -/
theorem absDate_full (abs Y yd : Int) (h : absDate abs false = (Y, 0, 0, yd)) :
    absDate abs true = (Y, (monthDay (isLeap Y) yd).1, (monthDay (isLeap Y) yd).2, yd) := by
  simp only [absDate, Bool.not_false, if_true, Prod.mk.injEq, true_and] at h
  obtain ⟨hy, hd⟩ := h
  simp only [absDate, hy, hd, monthDay, Bool.not_true, Bool.false_eq_true, if_false]
  split
  · rfl
  · split <;> split <;> simp_all

set_option maxRecDepth 100000 in
/-- Month and day of a day of the year, checked month by month and day by day. -/
theorem monthDay_yearDay_nat : ∀ (b : Bool) (m : Nat), m < 13 → ∀ d : Nat, d < 32 →
    (1 ≤ m ∧ 1 ≤ d ∧
      (d : Int) ≤ (if (m : Int) == 2 && b then 29 else daysBefore m - daysBefore (m - 1))) →
    monthDay b (yearDay b m d) = ((m : Int), (d : Int)) := by
  decide

set_option maxRecDepth 100000 in
/-- The day of the year of the month and day of a day of the year, checked day
by day. -/
theorem yearDay_monthDay_nat : ∀ (b : Bool) (n : Nat), n < 366 → (b = false → n < 365) →
    1 ≤ (monthDay b n).1 ∧ (monthDay b n).1 ≤ 12 ∧ 1 ≤ (monthDay b n).2 ∧
    (monthDay b n).2 ≤ (if (monthDay b n).1 == 2 && b then 29
      else daysBefore (monthDay b n).1 - daysBefore ((monthDay b n).1 - 1)) ∧
    yearDay b (monthDay b n).1 (monthDay b n).2 = n := by
  decide

/-- No month has more than 31 days. -/
theorem daysIn_le (M Y : Int) (h1 : 1 ≤ M) (h2 : M ≤ 12) : daysIn M Y ≤ 31 := by
  unfold daysIn
  split
  · omega
  · interval_cases M <;> simp [daysBefore]

/-- Day of the year of a date, within the year. -/
theorem yearDay_bounds (Y M D : Int) (hM1 : 1 ≤ M) (hM2 : M ≤ 12) (hD1 : 1 ≤ D)
    (hD2 : D ≤ daysIn M Y) :
    0 ≤ yearDay (isLeap Y) M D ∧
      yearDay (isLeap Y) M D < 365 + (if isLeap Y then 1 else 0) := by
  unfold daysIn at hD2
  unfold yearDay
  cases hb : isLeap Y <;> interval_cases M <;> simp [daysBefore, hb] at hD2 ⊢ <;> omega

/-- Month and day of the day of the year of a date. -/
theorem monthDay_yearDay (Y M D : Int) (hM1 : 1 ≤ M) (hM2 : M ≤ 12) (hD1 : 1 ≤ D)
    (hD2 : D ≤ daysIn M Y) :
    monthDay (isLeap Y) (yearDay (isLeap Y) M D) = (M, D) := by
  have h31 := daysIn_le M Y hM1 hM2
  obtain ⟨m, rfl⟩ := Int.eq_ofNat_of_zero_le (by omega : 0 ≤ M)
  obtain ⟨d, rfl⟩ := Int.eq_ofNat_of_zero_le (by omega : 0 ≤ D)
  exact monthDay_yearDay_nat (isLeap Y) m (by omega) d (by omega)
    ⟨by omega, by omega, by simpa [daysIn] using hD2⟩

/-- The date of an absolute time in a four-digit year: `absDate` inverts the
day count of `Date`. -/
theorem absDate_of_date (Y M D secs : Int) (h0 : 0 ≤ Y) (h1 : Y ≤ 9999)
    (hM1 : 1 ≤ M) (hM2 : M ≤ 12) (hD1 : 1 ≤ D) (hD2 : D ≤ daysIn M Y)
    (hs0 : 0 ≤ secs) (hs1 : secs < 86400) :
    absDate ((daysSinceEpoch Y + yearDay (isLeap Y) M D) * 86400 + secs) true =
      (Y, M, D, yearDay (isLeap Y) M D) := by
  have hb := yearDay_bounds Y M D hM1 hM2 hD1 hD2
  have h := absDate_year Y (yearDay (isLeap Y) M D) secs h0 h1 hb.1 hb.2 hs0 hs1
  rw [absDate_full _ _ _ h, monthDay_yearDay Y M D hM1 hM2 hD1 hD2]

end time

namespace time

/-! ## Digits -/

/-- One turn of the loop of `appendInt`. -/
theorem decimal_succ (fuel u : Nat) :
    decimal (fuel + 1) u =
      if u ≥ 10 then decimal fuel (u / 10) ++ [48 + u % 10] else [48 + u] := rfl

/-- The digits of a number below 100. -/
theorem decimal_lt_100 (fuel n : Nat) (h : n < 100) :
    decimal (fuel + 2) n = if n ≥ 10 then [48 + n / 10, 48 + n % 10] else [48 + n] := by
  rw [decimal_succ]
  split
  · rw [decimal_succ, if_neg (by omega)]
    rfl
  · rfl

/-- The digits of a number below 10000. -/
theorem decimal_lt_10000 (fuel n : Nat) (h : n < 10000) :
    decimal (fuel + 4) n =
      if n ≥ 1000 then [48 + n / 1000, 48 + n / 100 % 10, 48 + n / 10 % 10, 48 + n % 10]
      else if n ≥ 100 then [48 + n / 100, 48 + n / 10 % 10, 48 + n % 10]
      else if n ≥ 10 then [48 + n / 10, 48 + n % 10] else [48 + n] := by
  by_cases h10 : n ≥ 10
  · rw [decimal_succ, if_pos h10]
    by_cases h100 : n ≥ 100
    · rw [decimal_succ, if_pos (by omega)]
      rw [decimal_lt_100 fuel (n / 10 / 10) (by omega)]
      by_cases h1000 : n ≥ 1000
      · rw [if_pos (by omega), if_pos h1000]
        have e4 : n / 10 / 10 / 10 = n / 1000 := by omega
        have e5 : n / 10 / 10 % 10 = n / 100 % 10 := by omega
        simp [e4, e5]
      · rw [if_neg (by omega), if_neg h1000, if_pos h100]
        have e5 : n / 10 / 10 = n / 100 := by omega
        simp [e5]
    · rw [decimal_succ, if_neg (by omega), if_neg (by omega), if_neg h100, if_pos h10]
      simp
  · rw [decimal_succ, if_neg h10, if_neg (by omega), if_neg (by omega), if_neg h10]

/-- The two digits `appendInt` writes for a number below 100. -/
theorem appendInt_two (b : List Nat) (n : Nat) (h : n < 100) :
    appendInt b (n : Int) 2 = b ++ [48 + n / 10, 48 + n % 10] := by
  have h0 : ¬ ((n : Int) < 0) := by omega
  have h1 : (u64 (n : Int)).toNat = n := by
    unfold u64
    omega
  have h2 : decimal 20 n = if n ≥ 10 then [48 + n / 10, 48 + n % 10] else [48 + n] :=
    decimal_lt_100 18 n h
  simp only [appendInt, h0, if_false, h1, h2]
  by_cases h10 : n ≥ 10
  · simp [h10]
  · have e1 : n / 10 = 0 := by omega
    have e2 : n % 10 = n := by omega
    simp [h10, e1, e2]

/-- The four digits `appendInt` writes for a number below 10000. -/
theorem appendInt_four (b : List Nat) (n : Nat) (h : n < 10000) :
    appendInt b (n : Int) 4 =
      b ++ [48 + n / 1000, 48 + n / 100 % 10, 48 + n / 10 % 10, 48 + n % 10] := by
  have h0 : ¬ ((n : Int) < 0) := by omega
  have h1 : (u64 (n : Int)).toNat = n := by
    unfold u64
    omega
  have h2 := decimal_lt_10000 16 n h
  simp only [appendInt, h0, if_false, h1]
  rw [show decimal 20 n = decimal (16 + 4) n from rfl, h2]
  by_cases h1000 : n ≥ 1000
  · simp [h1000]
  · have e1 : n / 1000 = 0 := by omega
    by_cases h100 : n ≥ 100
    · have e2 : n / 100 % 10 = n / 100 := by omega
      simp [h1000, h100, e1, e2]
    · have e2 : n / 100 % 10 = 0 := by omega
      by_cases h10 : n ≥ 10
      · have e3 : n / 10 % 10 = n / 10 := by omega
        simp [h1000, h100, h10, e1, e2, e3]
      · have e3 : n / 10 % 10 = 0 := by omega
        have e4 : n % 10 = n := by omega
        simp [h1000, h100, h10, e1, e2, e3, e4]

/-- Two digits at the head of a value, as `getnum` reads them. -/
theorem getnum_two (a b : Nat) (rest : List Nat) (fixed : Bool) (ha : a < 10) (hb : b < 10) :
    getnum ((48 + a) :: (48 + b) :: rest) fixed = ((a : Int) * 10 + b, rest, true) := by
  have h0 : isDigit ((48 + a) :: (48 + b) :: rest) 0 = true := by
    simp [isDigit]; omega
  have h1 : isDigit ((48 + a) :: (48 + b) :: rest) 1 = true := by
    simp [isDigit]; omega
  simp only [getnum, h0, h1]
  simp

/-- Reading on after some digits. -/
theorem leadingInt_digit (x : Int) (c : Nat) (cs : List Nat) (hc1 : 48 ≤ c) (hc2 : c ≤ 57)
    (hx0 : 0 ≤ x) (hx : x * 10 + (c : Int) - 48 < 9223372036854775808) :
    leadingInt x (c :: cs) = leadingInt (x * 10 + (c : Int) - 48) cs := by
  have h1 : ¬ (c < 48 ∨ c > 57) := by omega
  have h2 : ¬ (x > 9223372036854775807 / 10) := by omega
  have h3 : i64 (x * 10 + (c : Int) - 48) = x * 10 + (c : Int) - 48 := by
    unfold i64
    omega
  have h4 : ¬ (x * 10 + (c : Int) - 48 < 0) := by omega
  simp only [leadingInt, h1, h2, h3, h4, if_false]

/-- Four digits as `atoi` reads them. -/
theorem atoi_four (a b c d : Nat) (ha : a < 10) (hb : b < 10) (hc : c < 10) (hd : d < 10) :
    atoi [48 + a, 48 + b, 48 + c, 48 + d] =
      some ((a : Int) * 1000 + (b : Int) * 100 + (c : Int) * 10 + d) := by
  have hh : ([48 + a, 48 + b, 48 + c, 48 + d] : List Nat).head? = some (48 + a) := rfl
  have n1 : ((some (48 + a) : Option Nat) == some 45) = false := by
    simp; omega
  have n2 : ((some (48 + a) : Option Nat) == some 43) = false := by
    simp; omega
  simp only [atoi, hh, n1, n2, Bool.or_self, Bool.false_eq_true, if_false]
  rw [leadingInt_digit _ _ _ (by omega) (by omega) (by omega) (by omega)]
  rw [leadingInt_digit _ _ _ (by omega) (by omega) (by omega) (by omega)]
  rw [leadingInt_digit _ _ _ (by omega) (by omega) (by omega) (by omega)]
  rw [leadingInt_digit _ _ _ (by omega) (by omega) (by omega) (by omega)]
  simp only [leadingInt]
  simp
  omega

end time

namespace time

/-! ## Parsing a formatted date and time -/

/-- One chunk read without error: the loop goes on with the next chunk. -/
theorem parseChunks_step (al av : List Nat) (c : Chunk) (cs : List Chunk) (f f1 : Fields)
    (v v1 v2 : List Nat) (hs : skip v c.pfx = (v1, true))
    (hp : parseStd c.std (cs.head?.map Chunk.std) f v1 = ⟨f1, v2, [], true⟩) :
    parseChunks al av (c :: cs) f v = parseChunks al av cs f1 v2 := by
  rw [parseChunks, hs]
  simp only [hp]
  rfl

/-- Skipping a literal byte that is not a space. -/
theorem skip_byte (c : Nat) (v : List Nat) (hc : c ≠ 32) : skip (c :: v) [c] = (v, true) := by
  simp [skip, skipLoop, hc]

/-- Skipping an empty prefix. -/
theorem skip_nil (v : List Nat) : skip v [] = (v, true) := rfl

/-- The year of four digits. -/
theorem parseStd_year (next : Option Std) (f : Fields) (n : Nat) (rest : List Nat)
    (h : n < 10000) :
    parseStd Std.stdLongYear next f
      ((48 + n / 1000) :: (48 + n / 100 % 10) :: (48 + n / 10 % 10) :: (48 + n % 10) :: rest) =
      ⟨{ f with year := n }, rest, [], true⟩ := by
  have h0 : isDigit ((48 + n / 1000) :: (48 + n / 100 % 10) :: (48 + n / 10 % 10) :: (48 + n % 10) :: rest)
      0 = true := by
    simp [isDigit]; omega
  have h1 := atoi_four (n / 1000) (n / 100 % 10) (n / 10 % 10) (n % 10) (by omega) (by omega)
    (by omega) (by omega)
  simp only [parseStd, List.length_cons, h0, List.take, h1, List.drop]
  have e : ((n / 1000 : Nat) : Int) * 1000 + ((n / 100 % 10 : Nat) : Int) * 100 +
      ((n / 10 % 10 : Nat) : Int) * 10 + ((n % 10 : Nat) : Int) = n := by omega
  have hl : ¬ (rest.length + 1 + 1 + 1 + 1 < 4) := by omega
  simp only [e, decide_eq_true_eq, hl, Bool.not_true, Bool.or_false, Bool.false_eq_true,
    if_false, decide_False]

/-- The month of two digits. -/
theorem parseStd_month (next : Option Std) (f : Fields) (n : Nat) (rest : List Nat)
    (h1 : 1 ≤ n) (h2 : n ≤ 12) :
    parseStd Std.stdZeroMonth next f ((48 + n / 10) :: (48 + n % 10) :: rest) =
      ⟨{ f with month := n }, rest, [], true⟩ := by
  have e : ((n / 10 : Nat) : Int) * 10 + ((n % 10 : Nat) : Int) = n := by omega
  have c : ¬ ((n : Int) ≤ 0 ∨ 12 < (n : Int)) := by omega
  simp only [parseStd, getnum_two (n / 10) (n % 10) rest true (by omega) (by omega), e, c,
    if_false]

/-- The day of two digits. -/
theorem parseStd_day (next : Option Std) (f : Fields) (n : Nat) (rest : List Nat)
    (h2 : n < 100) :
    parseStd Std.stdZeroDay next f ((48 + n / 10) :: (48 + n % 10) :: rest) =
      ⟨{ f with day := n }, rest, [], true⟩ := by
  have e : ((n / 10 : Nat) : Int) * 10 + ((n % 10 : Nat) : Int) = n := by omega
  have c : ¬ ((n : Int) < 0) := by omega
  simp only [parseStd, getnum_two (n / 10) (n % 10) rest true (by omega) (by omega), e, c,
    if_false]

/-- The hour of two digits. -/
theorem parseStd_hour (next : Option Std) (f : Fields) (n : Nat) (rest : List Nat)
    (h2 : n < 24) :
    parseStd Std.stdHour next f ((48 + n / 10) :: (48 + n % 10) :: rest) =
      ⟨{ f with hour := n }, rest, [], true⟩ := by
  have e : ((n / 10 : Nat) : Int) * 10 + ((n % 10 : Nat) : Int) = n := by omega
  have c : ¬ ((n : Int) < 0 ∨ 24 ≤ (n : Int)) := by omega
  simp only [parseStd, getnum_two (n / 10) (n % 10) rest false (by omega) (by omega), e, c,
    if_false]

/-- The minute of two digits. -/
theorem parseStd_minute (next : Option Std) (f : Fields) (n : Nat) (rest : List Nat)
    (h2 : n < 60) :
    parseStd Std.stdZeroMinute next f ((48 + n / 10) :: (48 + n % 10) :: rest) =
      ⟨{ f with min := n }, rest, [], true⟩ := by
  have e : ((n / 10 : Nat) : Int) * 10 + ((n % 10 : Nat) : Int) = n := by omega
  have c : ¬ ((n : Int) < 0 ∨ 60 ≤ (n : Int)) := by omega
  simp only [parseStd, getnum_two (n / 10) (n % 10) rest true (by omega) (by omega), e, c,
    if_false]

/-- The second of two digits, when no fraction of a second follows. -/
theorem parseStd_second (next : Option Std) (f : Fields) (n : Nat) (rest : List Nat)
    (h2 : n < 60)
    (hr : (decide (rest.length ≥ 2) && rest.head? == some 46 && isDigit rest 1) = false) :
    parseStd Std.stdZeroSecond next f ((48 + n / 10) :: (48 + n % 10) :: rest) =
      ⟨{ f with sec := n }, rest, [], true⟩ := by
  have e : ((n / 10 : Nat) : Int) * 10 + ((n % 10 : Nat) : Int) = n := by omega
  have c : ¬ ((n : Int) < 0 ∨ 60 ≤ (n : Int)) := by omega
  simp only [parseStd, getnum_two (n / 10) (n % 10) rest true (by omega) (by omega), e, c,
    if_false, hr, Bool.false_eq_true]

/-- The text of a date and a time of day, after the literal text `lit` and
before `rest`. -/
theorem parseChunks_dateTime (al av : List Nat) (tail : List Chunk) (Y M D h m s : Nat)
    (rest : List Nat) (hY : Y < 10000) (hM1 : 1 ≤ M) (hM2 : M ≤ 12) (hD : D < 100)
    (hh : h < 24) (hm : m < 60) (hs : s < 60) (f6 : Fields) (v6 : List Nat)
    (hsec : parseStd Std.stdZeroSecond (tail.head?.map Chunk.std)
      { Fields.init with year := Y, month := M, day := D, hour := h, min := m }
      ((48 + s / 10) :: (48 + s % 10) :: rest) = ⟨f6, v6, [], true⟩) :
    parseChunks al av (dateTimeChunks [34] ++ tail) Fields.init
      (34 :: (48 + Y / 1000) :: (48 + Y / 100 % 10) :: (48 + Y / 10 % 10) :: (48 + Y % 10) ::
        45 :: (48 + M / 10) :: (48 + M % 10) :: 45 :: (48 + D / 10) :: (48 + D % 10) ::
        84 :: (48 + h / 10) :: (48 + h % 10) :: 58 :: (48 + m / 10) :: (48 + m % 10) ::
        58 :: (48 + s / 10) :: (48 + s % 10) :: rest) =
      parseChunks al av tail f6 v6 := by
  simp only [dateTimeChunks, List.cons_append, List.nil_append]
  rw [parseChunks_step al av _ _ _ _ _ _ _ (skip_byte 34 _ (by decide))
    (parseStd_year _ _ Y _ hY)]
  rw [parseChunks_step al av _ _ _ _ _ _ _ (skip_byte 45 _ (by decide))
    (parseStd_month _ _ M _ hM1 hM2)]
  rw [parseChunks_step al av _ _ _ _ _ _ _ (skip_byte 45 _ (by decide))
    (parseStd_day _ _ D _ hD)]
  rw [parseChunks_step al av _ _ _ _ _ _ _ (skip_byte 84 _ (by decide))
    (parseStd_hour _ _ h _ hh)]
  rw [parseChunks_step al av _ _ _ _ _ _ _ (skip_byte 58 _ (by decide))
    (parseStd_minute _ _ m _ hm)]
  rw [parseChunks_step al av _ _ _ _ _ _ _ (skip_byte 58 _ (by decide)) hsec]

end time

namespace time

/-! ## `Date` and the fields of its result -/

/-- Go `norm` leaves a value that is in range alone. -/
theorem norm_id (hi lo base : Int) (h0 : 0 ≤ lo) (h1 : lo < base) : norm hi lo base = (hi, lo) := by
  have a : ¬ (lo < 0) := by omega
  have b : ¬ (lo ≥ base) := by omega
  simp only [norm, a, b, if_false]

/-- The first day of a four-digit year, within rough bounds. -/
theorem daysSinceEpoch_bounds (Y : Int) (h0 : 0 ≤ Y) (h1 : Y ≤ 9999) :
    365 * (Y + 292277022399) ≤ daysSinceEpoch Y ∧
      daysSinceEpoch Y ≤ 366 * (Y + 292277022399) := by
  obtain ⟨q, n2, n3, y3, hY, hq0, hq1, h20, h21, h30, h31, h40, h41, _⟩ := year_cycles Y h0 h1
  rw [daysSinceEpoch_cycles Y q n2 n3 y3 hY hq0 hq1 h20 h21 h30 h31 h40 h41]
  constructor <;> omega

/-- The time `Date` builds in UTC from fields that are in range. -/
theorem Date_utc (Y M D h m s ns : Int) (h0 : 0 ≤ Y) (h1 : Y ≤ 9999)
    (hM1 : 1 ≤ M) (hM2 : M ≤ 12) (hD1 : 1 ≤ D) (hD2 : D ≤ daysIn M Y)
    (hh0 : 0 ≤ h) (hh1 : h < 24) (hm0 : 0 ≤ m) (hm1 : m < 60) (hs0 : 0 ≤ s) (hs1 : s < 60)
    (hn0 : 0 ≤ ns) (hn1 : ns < 1000000000) :
    Date Y M D h m s ns 0 =
      ⟨(daysSinceEpoch Y + yearDay (isLeap Y) M D) * 86400 + (h * 3600 + m * 60 + s) -
        9223371966579724800, ns, 0⟩ := by
  have hb := daysSinceEpoch_bounds Y h0 h1
  have hy := yearDay_bounds Y M D hM1 hM2 hD1 hD2
  have hy2 : yearDay (isLeap Y) M D < 366 := by
    have := hy.2
    split at this <;> omega
  have e : M - 1 + 1 = M := by ring
  have n1 := norm_id Y (M - 1) 12 (by omega) (by omega)
  have n2 := norm_id s ns 1000000000 hn0 hn1
  have n3 := norm_id m s 60 hs0 hs1
  have n4 := norm_id h m 60 hm0 hm1
  have n5 := norm_id D h 24 hh0 hh1
  unfold Date
  rw [n1]
  simp only []
  rw [n2]
  simp only []
  rw [n3]
  simp only []
  rw [n4]
  simp only []
  rw [n5]
  simp only [e, secondsPerDay_eq, secondsPerHour_eq, secondsPerMinute_eq, absoluteToInternal]
  have e2 : (if (isLeap Y && decide (M ≥ 3)) = true then daysSinceEpoch Y + daysBefore (M - 1) + 1
      else daysSinceEpoch Y + daysBefore (M - 1)) + (D - 1) =
      daysSinceEpoch Y + yearDay (isLeap Y) M D := by
    unfold yearDay
    split <;> ring
  rw [e2]
  generalize daysSinceEpoch Y = dse at hb ⊢
  generalize yearDay (isLeap Y) M D = yd at hy hy2 ⊢
  have hy0 := hy.1
  congr 1
  unfold i64 u64
  omega

/-- The absolute time of the time `Date` builds in UTC from fields that are
in range. -/
theorem Date_utc_abs (Y M D h m s ns : Int) (h0 : 0 ≤ Y) (h1 : Y ≤ 9999)
    (hM1 : 1 ≤ M) (hM2 : M ≤ 12) (hD1 : 1 ≤ D) (hD2 : D ≤ daysIn M Y)
    (hh0 : 0 ≤ h) (hh1 : h < 24) (hm0 : 0 ≤ m) (hm1 : m < 60) (hs0 : 0 ≤ s) (hs1 : s < 60)
    (hn0 : 0 ≤ ns) (hn1 : ns < 1000000000) :
    (Date Y M D h m s ns 0).abs =
      (daysSinceEpoch Y + yearDay (isLeap Y) M D) * 86400 + (h * 3600 + m * 60 + s) := by
  rw [Date_utc Y M D h m s ns h0 h1 hM1 hM2 hD1 hD2 hh0 hh1 hm0 hm1 hs0 hs1 hn0 hn1]
  have hb := daysSinceEpoch_bounds Y h0 h1
  have hy := yearDay_bounds Y M D hM1 hM2 hD1 hD2
  have hy2 : yearDay (isLeap Y) M D < 366 := by
    have := hy.2
    split at this <;> omega
  simp only [Time.abs, internalToAbsolute]
  generalize daysSinceEpoch Y = dse at hb ⊢
  generalize yearDay (isLeap Y) M D = yd at hy hy2 ⊢
  have hy0 := hy.1
  unfold u64
  omega

/-- The fields of the time `Date` builds in UTC from fields that are in range
are those fields. -/
theorem Date_utc_fields (Y M D h m s ns : Int) (h0 : 0 ≤ Y) (h1 : Y ≤ 9999)
    (hM1 : 1 ≤ M) (hM2 : M ≤ 12) (hD1 : 1 ≤ D) (hD2 : D ≤ daysIn M Y)
    (hh0 : 0 ≤ h) (hh1 : h < 24) (hm0 : 0 ≤ m) (hm1 : m < 60) (hs0 : 0 ≤ s) (hs1 : s < 60)
    (hn0 : 0 ≤ ns) (hn1 : ns < 1000000000) :
    (Date Y M D h m s ns 0).Year = Y ∧ (Date Y M D h m s ns 0).Month = M ∧
    (Date Y M D h m s ns 0).Day = D ∧ (Date Y M D h m s ns 0).Hour = h ∧
    (Date Y M D h m s ns 0).Minute = m ∧ (Date Y M D h m s ns 0).Second = s ∧
    (Date Y M D h m s ns 0).Nanosecond = ns ∧ (Date Y M D h m s ns 0).zoneOffset = 0 := by
  have ha := Date_utc_abs Y M D h m s ns h0 h1 hM1 hM2 hD1 hD2 hh0 hh1 hm0 hm1 hs0 hs1 hn0 hn1
  have hd := Date_utc Y M D h m s ns h0 h1 hM1 hM2 hD1 hD2 hh0 hh1 hm0 hm1 hs0 hs1 hn0 hn1
  have hyb := yearDay_bounds Y M D hM1 hM2 hD1 hD2
  have hfull := absDate_of_date Y M D (h * 3600 + m * 60 + s) h0 h1 hM1 hM2 hD1 hD2
    (by omega) (by omega)
  have hyear := absDate_year Y (yearDay (isLeap Y) M D) (h * 3600 + m * 60 + s) h0 h1
    hyb.1 hyb.2 (by omega) (by omega)
  refine ⟨?_, ?_, ?_, ?_, ?_, ?_, ?_, ?_⟩
  · rw [Time.Year, ha, hyear]
  · rw [Time.Month, ha, hfull]
  · rw [Time.Day, ha, hfull]
  · rw [Time.Hour, ha, secondsPerDay_eq, secondsPerHour_eq]
    omega
  · rw [Time.Minute, ha, secondsPerHour_eq, secondsPerMinute_eq]
    omega
  · rw [Time.Second, ha, secondsPerMinute_eq]
    omega
  · rw [hd]; rfl
  · rw [hd]; rfl


/-- The no-offset layout reads the text of a valid date and time of day back
into the time `Date` builds from them. -/
theorem Parse_noOffset_text (Y M D h m s : Nat) (hY : Y ≤ 9999) (hM1 : 1 ≤ M) (hM2 : M ≤ 12)
    (hD1 : 1 ≤ D) (hD2 : (D : Int) ≤ daysIn M Y) (hh : h < 24) (hm : m < 60) (hs : s < 60) :
    Parse quotedNoOffsetLayout (noOffsetText Y M D h m s) = (Date Y M D h m s 0 0, none) := by
  have hD3 : D < 100 := by
    have := daysIn_le M Y (by omega) (by omega)
    omega
  have htext : noOffsetText Y M D h m s =
      34 :: (48 + Y / 1000) :: (48 + Y / 100 % 10) :: (48 + Y / 10 % 10) :: (48 + Y % 10) ::
        45 :: (48 + M / 10) :: (48 + M % 10) :: 45 :: (48 + D / 10) :: (48 + D % 10) ::
        84 :: (48 + h / 10) :: (48 + h % 10) :: 58 :: (48 + m / 10) :: (48 + m % 10) ::
        58 :: (48 + s / 10) :: (48 + s % 10) :: [34] := by
    simp only [noOffsetText, appendInt_four _ Y (by omega), appendInt_two _ M (by omega),
      appendInt_two _ D hD3, appendInt_two _ h (by omega), appendInt_two _ m (by omega),
      appendInt_two _ s (by omega)]
    simp
  have hch : quotedNoOffsetLayout.chunks = dateTimeChunks [34] ++ [] := rfl
  have hsf : quotedNoOffsetLayout.suffix = [34] := rfl
  have hsec := parseStd_second (([] : List Chunk).head?.map Chunk.std)
    { Fields.init with year := Y, month := M, day := D, hour := h, min := m } s [34] hs
    (by decide)
  unfold Parse
  rw [hch, hsf]
  conv_lhs => rw [htext]
  rw [parseChunks_dateTime _ _ [] Y M D h m s [34] (by omega) hM1 hM2 hD3 hh hm hs _ _ hsec]
  simp only [parseChunks, skip_byte 34 [] (by decide), Fields.init]
  simp
  exact ⟨by omega, hD2⟩

end time

/-- C4: for a valid date and time of day, `Time.UnmarshalJSON` decodes the
quoted text `"YYYY-MM-DDTHH:MM:SS"` without error, to a time whose year, month,
day, hour, minute and second are the ones written and whose offset is zero;
the text for 2020-01-02 03:04:05 is `"2020-01-02T03:04:05"`. -/
theorem C4_UnmarshalJSON_no_offset_text (t : Time) (Y M D h m s : Int)
    (hY : 0 ≤ Y ∧ Y ≤ 9999) (hM : 1 ≤ M ∧ M ≤ 12) (hD : 1 ≤ D ∧ D ≤ time.daysIn M Y)
    (hh : 0 ≤ h ∧ h < 24) (hm : 0 ≤ m ∧ m < 60) (hs : 0 ≤ s ∧ s < 60) :
    (Time.UnmarshalJSON t (noOffsetText Y M D h m s)).2 = none ∧
    (Time.UnmarshalJSON t (noOffsetText Y M D h m s)).1.toTime.Year = Y ∧
    (Time.UnmarshalJSON t (noOffsetText Y M D h m s)).1.toTime.Month = M ∧
    (Time.UnmarshalJSON t (noOffsetText Y M D h m s)).1.toTime.Day = D ∧
    (Time.UnmarshalJSON t (noOffsetText Y M D h m s)).1.toTime.Hour = h ∧
    (Time.UnmarshalJSON t (noOffsetText Y M D h m s)).1.toTime.Minute = m ∧
    (Time.UnmarshalJSON t (noOffsetText Y M D h m s)).1.toTime.Second = s ∧
    (Time.UnmarshalJSON t (noOffsetText Y M D h m s)).1.toTime.zoneOffset = 0 ∧
    noOffsetText 2020 1 2 3 4 5 = [34] ++ ascii "2020-01-02T03:04:05" ++ [34] := by
  obtain ⟨y, rfl⟩ := Int.eq_ofNat_of_zero_le hY.1
  obtain ⟨mo, rfl⟩ := Int.eq_ofNat_of_zero_le (by omega : 0 ≤ M)
  obtain ⟨d, rfl⟩ := Int.eq_ofNat_of_zero_le (by omega : 0 ≤ D)
  obtain ⟨ho, rfl⟩ := Int.eq_ofNat_of_zero_le hh.1
  obtain ⟨mi, rfl⟩ := Int.eq_ofNat_of_zero_le hm.1
  obtain ⟨se, rfl⟩ := Int.eq_ofNat_of_zero_le hs.1
  have hp := time.Parse_noOffset_text y mo d ho mi se (by omega) (by omega) (by omega)
    (by omega) hD.2 (by omega) (by omega) (by omega)
  have hstd : (time.Time.UnmarshalJSON t.toTime (noOffsetText y mo d ho mi se)).2 ≠ none := by
    intro h1
    exact time.formats_disjoint _ _ h1 (by rw [hp])
  have hres : Time.UnmarshalJSON t (noOffsetText y mo d ho mi se) =
      (⟨time.Date y mo d ho mi se 0 0⟩, none) := by
    unfold Time.UnmarshalJSON
    rcases hq : time.Time.UnmarshalJSON t.toTime (noOffsetText y mo d ho mi se) with ⟨t1, e1⟩
    rw [hq] at hstd
    cases e1 with
    | none => exact absurd rfl hstd
    | some e1 => simp only [hp]
  have hf := time.Date_utc_fields y mo d ho mi se 0 hY.1 hY.2 hM.1 hM.2 hD.1 hD.2 hh.1 hh.2
    hm.1 hm.2 hs.1 hs.2 (by omega) (by omega)
  rw [hres]
  exact ⟨rfl, hf.1, hf.2.1, hf.2.2.1, hf.2.2.2.1, hf.2.2.2.2.1, hf.2.2.2.2.2.1,
    hf.2.2.2.2.2.2.2, by decide⟩

/-- Witness of C4: 2020-01-02 03:04:05. -/
theorem C4_UnmarshalJSON_no_offset_text_witness :
    (Time.UnmarshalJSON ⟨time.Time.zero⟩ (noOffsetText 2020 1 2 3 4 5)).2 = none ∧
    (Time.UnmarshalJSON ⟨time.Time.zero⟩ (noOffsetText 2020 1 2 3 4 5)).1.toTime.Year = 2020 ∧
    (Time.UnmarshalJSON ⟨time.Time.zero⟩ (noOffsetText 2020 1 2 3 4 5)).1.toTime.Month = 1 ∧
    (Time.UnmarshalJSON ⟨time.Time.zero⟩ (noOffsetText 2020 1 2 3 4 5)).1.toTime.Day = 2 ∧
    (Time.UnmarshalJSON ⟨time.Time.zero⟩ (noOffsetText 2020 1 2 3 4 5)).1.toTime.Hour = 3 ∧
    (Time.UnmarshalJSON ⟨time.Time.zero⟩ (noOffsetText 2020 1 2 3 4 5)).1.toTime.Minute = 4 ∧
    (Time.UnmarshalJSON ⟨time.Time.zero⟩ (noOffsetText 2020 1 2 3 4 5)).1.toTime.Second = 5 ∧
    (Time.UnmarshalJSON ⟨time.Time.zero⟩ (noOffsetText 2020 1 2 3 4 5)).1.toTime.zoneOffset = 0 ∧
    noOffsetText 2020 1 2 3 4 5 = [34] ++ ascii "2020-01-02T03:04:05" ++ [34] :=
  C4_UnmarshalJSON_no_offset_text ⟨time.Time.zero⟩ 2020 1 2 3 4 5 (by decide) (by decide)
    (by decide) (by decide) (by decide) (by decide)

namespace time

/-! ## Fractions of a second -/

theorem digitsValue_nil (x : Nat) : digitsValue x [] = x := rfl

theorem digitsValue_cons (x c : Nat) (cs : List Nat) :
    digitsValue x (c :: cs) = digitsValue (x * 10 + (c - 48)) cs := rfl

theorem digitsValue_concat (x c : Nat) (ds : List Nat) :
    digitsValue x (ds ++ [c]) = digitsValue x ds * 10 + (c - 48) := by
  simp [digitsValue, List.foldl_append]

/-- More digits spell a larger number. -/
theorem le_digitsValue (x : Nat) (ds : List Nat) : x ≤ digitsValue x ds := by
  induction ds generalizing x with
  | nil => exact Nat.le_refl _
  | cons c cs ih =>
    rw [digitsValue_cons]
    have := ih (x * 10 + (c - 48))
    omega

/-- Go `leadingInt` reads a string of digits that fits an `int64`. -/
theorem leadingInt_digits (ds rest : List Nat) (x : Nat)
    (hd : ∀ c ∈ ds, 48 ≤ c ∧ c ≤ 57) (hb : digitsValue x ds < 9223372036854775808) :
    leadingInt (x : Int) (ds ++ rest) = leadingInt ((digitsValue x ds : Nat) : Int) rest := by
  induction ds generalizing x with
  | nil => rfl
  | cons c cs ih =>
    have hc := hd c (List.mem_cons_self _ _)
    rw [digitsValue_cons] at hb ⊢
    have hle := le_digitsValue (x * 10 + (c - 48)) cs
    rw [List.cons_append, leadingInt_digit _ _ _ hc.1 hc.2 (by omega) (by omega)]
    have e : (x : Int) * 10 + (c : Int) - 48 = ((x * 10 + (c - 48) : Nat) : Int) := by omega
    rw [e]
    exact ih _ (fun c' h' => hd c' (List.mem_cons_of_mem _ h')) hb

/-- Go `leadingInt` stops at a byte that is not a digit. -/
theorem leadingInt_stop (x : Int) (c : Nat) (cs : List Nat) (hc : c < 48 ∨ c > 57) :
    leadingInt x (c :: cs) = some (x, c :: cs) := by
  simp only [leadingInt, hc, if_true]

/-- Go `atoi` on a string of digits that fits an `int64`. -/
theorem atoi_digits (c : Nat) (cs : List Nat) (hd : ∀ c' ∈ c :: cs, 48 ≤ c' ∧ c' ≤ 57)
    (hb : digitsValue 0 (c :: cs) < 9223372036854775808) :
    atoi (c :: cs) = some ((digitsValue 0 (c :: cs) : Nat) : Int) := by
  have hc := hd c (List.mem_cons_self _ _)
  have n1 : ((some c : Option Nat) == some 45) = false := by
    simp; omega
  have n2 : ((some c : Option Nat) == some 43) = false := by
    simp; omega
  have hl := leadingInt_digits (c :: cs) [] 0 hd hb
  rw [List.append_nil] at hl
  simp only [atoi, List.head?, n1, n2, Bool.or_self, Bool.false_eq_true, if_false]
  rw [show ((0 : Int)) = ((0 : Nat) : Int) from rfl, hl]
  simp [leadingInt]

theorem nanoDigits_succ (k u : Nat) :
    nanoDigits (k + 1) u = nanoDigits k (u / 10) ++ [48 + u % 10] := rfl

theorem nanoDigits_length (k u : Nat) : (nanoDigits k u).length = k := by
  induction k generalizing u with
  | zero => rfl
  | succ k ih => rw [nanoDigits_succ, List.length_append, ih]; rfl

theorem nanoDigits_digit (k u : Nat) : ∀ c ∈ nanoDigits k u, 48 ≤ c ∧ c ≤ 57 := by
  induction k generalizing u with
  | zero => intro c h; simp [nanoDigits] at h
  | succ k ih =>
    intro c h
    rw [nanoDigits_succ, List.mem_append] at h
    rcases h with h | h
    · exact ih _ c h
    · simp at h
      omega

/-- The digits `formatNano` writes spell the number of nanoseconds. -/
theorem digitsValue_nanoDigits (k u x : Nat) (h : u < 10 ^ k) :
    digitsValue x (nanoDigits k u) = x * 10 ^ k + u := by
  induction k generalizing u with
  | zero =>
    simp at h
    simp [nanoDigits, digitsValue, h]
  | succ k ih =>
    have h10 : u / 10 < 10 ^ k := by
      rw [pow_succ] at h
      omega
    rw [nanoDigits_succ, digitsValue_concat, ih _ h10, pow_succ]
    have : 48 + u % 10 - 48 = u % 10 := by omega
    rw [this]
    have := Nat.div_add_mod u 10
    nlinarith

/-- Without their trailing zeros the digits spell the number of nanoseconds
up to the power of ten the zeros stand for. -/
theorem digitsValue_trim (k u : Nat) (h : u < 10 ^ k) :
    digitsValue 0 ((nanoDigits k u).rdropWhile (fun c => c == 48)) *
      10 ^ (k - ((nanoDigits k u).rdropWhile (fun c => c == 48)).length) = u ∧
    ((nanoDigits k u).rdropWhile (fun c => c == 48)).length ≤ k := by
  induction k generalizing u with
  | zero =>
    simp at h
    simp [nanoDigits, digitsValue, h]
  | succ k ih =>
    have h10 : u / 10 < 10 ^ k := by
      rw [pow_succ] at h
      omega
    rw [nanoDigits_succ, List.rdropWhile_concat]
    by_cases h0 : u % 10 = 0
    · have e : ((48 + u % 10) == 48) = true := by simp [h0]
      rw [e, if_pos rfl]
      obtain ⟨ih1, ih2⟩ := ih _ h10
      refine ⟨?_, by omega⟩
      have e2 : k + 1 - ((nanoDigits k (u / 10)).rdropWhile (fun c => c == 48)).length =
          (k - ((nanoDigits k (u / 10)).rdropWhile (fun c => c == 48)).length) + 1 := by omega
      rw [e2, pow_succ, ← mul_assoc, ih1]
      omega
    · have e : ((48 + u % 10) == 48) = false := by simp [h0]
      rw [e]
      simp only [Bool.false_eq_true, if_false]
      rw [List.length_append, nanoDigits_length, digitsValue_concat,
        digitsValue_nanoDigits _ _ _ h10]
      simp
      omega

end time

namespace time

/-! ## From an absolute time to its date and back -/

/-- The leap year rule for a year given by its place in the cycles. -/
theorem isLeap_cycles (Y q n2 n3 y3 : Int)
    (hY : Y + 292277022399 = 400 * q + 100 * n2 + 4 * n3 + y3)
    (h20 : 0 ≤ n2) (h21 : n2 ≤ 3) (h30 : 0 ≤ n3) (h31 : n3 ≤ 24) (h40 : 0 ≤ y3) (h41 : y3 ≤ 3) :
    isLeap Y = true ↔ (y3 = 3 ∧ (n3 = 24 → n2 = 3)) := by
  rw [isLeap_iff]
  omega

/-- Every absolute time lies in some second of some day of some year of the
cycles. -/
theorem abs_cycles (A : Int) (h0 : 0 ≤ A) :
    ∃ q n2 n3 y3 yd secs : Int,
      0 ≤ q ∧ 0 ≤ n2 ∧ n2 ≤ 3 ∧ 0 ≤ n3 ∧ n3 ≤ 24 ∧ 0 ≤ y3 ∧ y3 ≤ 3 ∧ 0 ≤ yd ∧ yd ≤ 365 ∧
      (yd = 365 → y3 = 3 ∧ (n3 = 24 → n2 = 3)) ∧ 0 ≤ secs ∧ secs < 86400 ∧
      A = (146097 * q + 36524 * n2 + 1461 * n3 + 365 * y3 + yd) * 86400 + secs := by
  obtain ⟨d, hd⟩ : ∃ d, d = A / 86400 := ⟨_, rfl⟩
  obtain ⟨secs, hsecs⟩ : ∃ s, s = A % 86400 := ⟨_, rfl⟩
  have hA : A = d * 86400 + secs := by omega
  have hd0 : 0 ≤ d := by omega
  have hs0 : 0 ≤ secs := by omega
  have hs1 : secs < 86400 := by omega
  clear hd hsecs
  obtain ⟨q, hq⟩ : ∃ q, q = d / 146097 := ⟨_, rfl⟩
  obtain ⟨r1, hr1⟩ : ∃ r, r = d % 146097 := ⟨_, rfl⟩
  have hd1 : d = 146097 * q + r1 := by omega
  have hq0 : 0 ≤ q := by omega
  have hr10 : 0 ≤ r1 := by omega
  have hr11 : r1 ≤ 146096 := by omega
  clear hq hr1
  obtain ⟨n2, hn2⟩ : ∃ n, n = r1 / 36524 - r1 / 36524 / 4 := ⟨_, rfl⟩
  obtain ⟨r2, hr2⟩ : ∃ r, r = r1 - 36524 * n2 := ⟨_, rfl⟩
  have h20 : 0 ≤ n2 := by omega
  have h21 : n2 ≤ 3 := by omega
  have hr20 : 0 ≤ r2 := by omega
  have hr21 : r2 ≤ 36524 := by omega
  have hr22 : r2 = 36524 → n2 = 3 := by omega
  clear hn2
  obtain ⟨n3, hn3⟩ : ∃ n, n = r2 / 1461 := ⟨_, rfl⟩
  obtain ⟨r3, hr3⟩ : ∃ r, r = r2 % 1461 := ⟨_, rfl⟩
  have hr2' : r2 = 1461 * n3 + r3 := by omega
  have h30 : 0 ≤ n3 := by omega
  have h31 : n3 ≤ 24 := by omega
  have hr30 : 0 ≤ r3 := by omega
  have hr31 : r3 ≤ 1460 := by omega
  clear hn3 hr3
  obtain ⟨y3, hy3⟩ : ∃ n, n = r3 / 365 - r3 / 365 / 4 := ⟨_, rfl⟩
  obtain ⟨yd, hyd⟩ : ∃ r, r = r3 - 365 * y3 := ⟨_, rfl⟩
  have h40 : 0 ≤ y3 := by omega
  have h41 : y3 ≤ 3 := by omega
  have hyd0 : 0 ≤ yd := by omega
  have hyd1 : yd ≤ 365 := by omega
  have hyd2 : yd = 365 → y3 = 3 ∧ r3 = 1460 := by omega
  clear hy3
  refine ⟨q, n2, n3, y3, yd, secs, hq0, h20, h21, h30, h31, h40, h41, hyd0, hyd1, ?_, hs0, hs1, ?_⟩
  · intro h
    obtain ⟨h3, h4⟩ := hyd2 h
    refine ⟨h3, fun h24 => hr22 ?_⟩
    omega
  · omega

/-- The date and the time of day of an absolute time whose year has four
digits, with the bounds they obey and the way back to the absolute time. -/
theorem absDate_inv (A : Int) (h0 : 0 ≤ A) (hY0 : 0 ≤ (absDate A false).1)
    (hY1 : (absDate A false).1 ≤ 9999) :
    ∃ Y M D h m s : Nat,
      absDate A false = ((Y : Int), 0, 0, yearDay (isLeap Y) M D) ∧
      absDate A true = ((Y : Int), (M : Int), (D : Int), yearDay (isLeap Y) M D) ∧
      absClock A = ((h : Int), (m : Int), (s : Int)) ∧
      Y ≤ 9999 ∧ 1 ≤ M ∧ M ≤ 12 ∧ 1 ≤ D ∧ (D : Int) ≤ daysIn M Y ∧ h < 24 ∧ m < 60 ∧ s < 60 ∧
      A = (daysSinceEpoch Y + yearDay (isLeap Y) M D) * 86400 +
        ((h : Int) * 3600 + (m : Int) * 60 + (s : Int)) := by
  obtain ⟨q, n2, n3, y3, yd, secs, hq0, h20, h21, h30, h31, h40, h41, hyd0, hyd1, hleap, hs0, hs1,
    hA⟩ := abs_cycles A h0
  have hfalse := absDate_cycles q n2 n3 y3 yd secs hq0 h20 h21 h30 h31 h40 h41 hyd0 hyd1 hleap
    hs0 hs1
  rw [← hA] at hfalse
  rw [hfalse] at hY0 hY1
  simp only [absoluteZeroYear] at hY0 hY1 hfalse
  obtain ⟨Y, hYe⟩ := Int.eq_ofNat_of_zero_le hY0
  rw [hYe] at hfalse hY1
  have hYc : (Y : Int) + 292277022399 = 400 * q + 100 * n2 + 4 * n3 + y3 := by omega
  have hl := isLeap_cycles Y q n2 n3 y3 hYc h20 h21 h30 h31 h40 h41
  have hdse := daysSinceEpoch_cycles Y q n2 n3 y3 hYc hq0 (by omega) h20 h21 h30 h31 h40 h41
  obtain ⟨n, hn⟩ := Int.eq_ofNat_of_zero_le hyd0
  have hmd := yearDay_monthDay_nat (isLeap Y) n (by omega) (by
    intro hb
    by_contra hc
    have : yd = 365 := by omega
    have := hl.mpr (hleap this)
    rw [hb] at this
    exact absurd this (by decide))
  rw [← hn] at hmd
  obtain ⟨hm1, hm2, hd1, hd2, hyd⟩ := hmd
  obtain ⟨M, hM⟩ := Int.eq_ofNat_of_zero_le (by omega : 0 ≤ (monthDay (isLeap Y) yd).1)
  obtain ⟨D, hD⟩ := Int.eq_ofNat_of_zero_le (by omega : 0 ≤ (monthDay (isLeap Y) yd).2)
  have hfull := absDate_full A Y yd hfalse
  rw [hM, hD] at hfull hyd
  rw [hM] at hm1 hm2 hd2
  rw [hD] at hd1 hd2
  obtain ⟨h, hh⟩ := Int.eq_ofNat_of_zero_le (by omega : 0 ≤ secs / 3600)
  obtain ⟨m, hm⟩ := Int.eq_ofNat_of_zero_le (by omega : 0 ≤ secs % 3600 / 60)
  obtain ⟨s, hs⟩ := Int.eq_ofNat_of_zero_le (by omega : 0 ≤ secs % 60)
  refine ⟨Y, M, D, h, m, s, ?_, ?_, ?_, by omega, by omega, by omega, by omega, ?_, by omega,
    by omega, by omega, ?_⟩
  · rw [hfalse, hyd]
  · rw [hfull, hyd]
  · simp only [absClock, secondsPerDay_eq, secondsPerHour_eq, secondsPerMinute_eq, Prod.mk.injEq]
    refine ⟨?_, ?_, ?_⟩ <;> omega
  · simpa [daysIn] using hd2
  · rw [hyd, hdse]
    omega

end time

namespace time

/-! ## Writing and reading a fraction of a second -/

/-- A whole number of seconds has no fraction written. -/
theorem formatNano_zero (b : List Nat) : formatNano b 0 9 = b := by
  have : ((nanoDigits 9 (u64 0).toNat).take (min 9 9)).rdropWhile (fun c => c == 48) = [] := by
    decide
  simp only [formatNano, this, List.isEmpty_nil, if_true]

/-- The digits written for a number of nanoseconds, without the trailing
zeros. -/
theorem formatNano_pos (b : List Nat) (ns : Nat) (h0 : ns ≠ 0) (h1 : ns < 1000000000) :
    ∃ c cs, (nanoDigits 9 ns).rdropWhile (fun c => c == 48) = c :: cs ∧
      formatNano b (ns : Int) 9 = b ++ 46 :: c :: cs ∧
      (∀ c' ∈ c :: cs, 48 ≤ c' ∧ c' ≤ 57) ∧
      digitsValue 0 (c :: cs) * 10 ^ (9 - (c :: cs).length) = ns ∧ (c :: cs).length ≤ 9 := by
  have hu : (u64 (ns : Int)).toNat = ns := by
    unfold u64
    omega
  have ht : (nanoDigits 9 ns).take (min 9 9) = nanoDigits 9 ns := by
    apply List.take_of_length_le
    rw [nanoDigits_length]
    decide
  obtain ⟨hv, hl⟩ := digitsValue_trim 9 ns (by norm_num; omega)
  have hd : ∀ c' ∈ (nanoDigits 9 ns).rdropWhile (fun c => c == 48), 48 ≤ c' ∧ c' ≤ 57 :=
    fun c' hc' => nanoDigits_digit 9 ns c'
      ((List.rdropWhile_prefix (fun c => c == 48) (nanoDigits 9 ns)).subset hc')
  cases hT : (nanoDigits 9 ns).rdropWhile (fun c => c == 48) with
  | nil =>
    rw [hT] at hv
    simp [digitsValue] at hv
    exact absurd hv.symm h0
  | cons c cs =>
    rw [hT] at hv hl hd
    refine ⟨c, cs, rfl, ?_, hd, hv, hl⟩
    simp only [formatNano, hu, ht, hT, List.isEmpty_cons, Bool.false_eq_true, if_false]
    simp

/-- Digits up to a byte that is not a digit. -/
theorem takeWhile_digits (cs rest : List Nat) (hd : ∀ c ∈ cs, 48 ≤ c ∧ c ≤ 57)
    (hr : ∀ c ∈ rest.head?, c < 48 ∨ 57 < c) :
    (cs ++ rest).takeWhile (fun c => decide (48 ≤ c) && decide (c ≤ 57)) = cs := by
  induction cs with
  | nil =>
    cases rest with
    | nil => rfl
    | cons r rs =>
      have := hr r (by simp)
      have e : (decide (48 ≤ r) && decide (r ≤ 57)) = false := by
        simp; omega
      simp [List.takeWhile, e]
  | cons c cs ih =>
    have hc := hd c (List.mem_cons_self _ _)
    have e : (decide (48 ≤ c) && decide (c ≤ 57)) = true := by
      simp; omega
    rw [List.cons_append, List.takeWhile_cons, e, if_pos rfl,
      ih (fun c' h' => hd c' (List.mem_cons_of_mem _ h'))]

/-- The seconds and the fraction that follows them, read by a layout that has
no fraction. -/
theorem parseStd_second_frac (next : Option Std) (hnext : next ≠ some Std.stdFracSecond9)
    (f : Fields) (s ns : Nat) (c : Nat) (cs rest : List Nat) (h2 : s < 60)
    (hd : ∀ c' ∈ c :: cs, 48 ≤ c' ∧ c' ≤ 57)
    (hv : digitsValue 0 (c :: cs) * 10 ^ (9 - (c :: cs).length) = ns)
    (hl : (c :: cs).length ≤ 9) (hns : ns < 1000000000)
    (hr : ∀ c ∈ rest.head?, c < 48 ∨ 57 < c) :
    parseStd Std.stdZeroSecond next f
      ((48 + s / 10) :: (48 + s % 10) :: (46 :: c :: cs ++ rest)) =
      ⟨{ f with sec := s, nsec := ns }, rest, [], true⟩ := by
  have e : ((s / 10 : Nat) : Int) * 10 + ((s % 10 : Nat) : Int) = s := by omega
  have cnd : ¬ ((s : Int) < 0 ∨ 60 ≤ (s : Int)) := by omega
  have hc := hd c (List.mem_cons_self _ _)
  have hfrac : (decide ((46 :: c :: cs ++ rest).length ≥ 2) &&
      (46 :: c :: cs ++ rest).head? == some 46 && isDigit (46 :: c :: cs ++ rest) 1) = true := by
    have : (decide (48 ≤ c) && decide (c ≤ 57)) = true := by
      simp; omega
    simp [isDigit, this]
  have hnx : (next == some Std.stdFracSecond9) = false := by simpa using hnext
  have hlen : fracLen (46 :: c :: cs ++ rest) = 2 + cs.length := by
    have hdr : (46 :: c :: cs ++ rest).drop 2 = cs ++ rest := rfl
    unfold fracLen
    rw [hdr, takeWhile_digits cs rest (fun c' h' => hd c' (List.mem_cons_of_mem _ h')) hr]
  have hpow : 0 < 10 ^ (9 - (c :: cs).length) := by positivity
  have hval : digitsValue 0 (c :: cs) ≤ ns := by
    calc digitsValue 0 (c :: cs) = digitsValue 0 (c :: cs) * 1 := (Nat.mul_one _).symm
      _ ≤ digitsValue 0 (c :: cs) * 10 ^ (9 - (c :: cs).length) :=
        Nat.mul_le_mul_left _ hpow
      _ = ns := hv
  have hat := atoi_digits c cs hd (by omega)
  have htake : ((46 :: c :: cs ++ rest).take (2 + cs.length)).drop 1 = c :: cs := by
    rw [show 2 + cs.length = (cs.length + 1) + 1 by omega]
    simp [List.take]
  have hdrop : (46 :: c :: cs ++ rest).drop (2 + cs.length) = rest := by
    rw [show 2 + cs.length = (cs.length + 1) + 1 by omega]
    simp [List.drop]
  have hrange : ¬ (((digitsValue 0 (c :: cs) : Nat) : Int) < 0 ∨
      1000000000 ≤ ((digitsValue 0 (c :: cs) : Nat) : Int)) := by omega
  have hexp : 10 - (2 + cs.length) = 9 - (c :: cs).length := by
    simp only [List.length_cons]
    omega
  have hpn : parseNanoseconds (46 :: c :: cs ++ rest) (2 + cs.length) = ((ns : Int), [], true) := by
    have h46 : ((46 :: c :: cs ++ rest).head? != some 46) = false := by simp
    simp only [parseNanoseconds, h46, Bool.false_eq_true, if_false, htake, hat, hrange, hexp]
    rw [← hv]
    push_cast
    rfl
  simp only [parseStd, getnum_two (s / 10) (s % 10) _ true (by omega) (by omega), e, cnd,
    if_false, hfrac, if_true, hnx, Bool.false_eq_true, hlen, hpn, hdrop]

end time

namespace time

/-! ## Writing and reading a zone offset -/

/-- Two digits as `atoi` reads them. -/
theorem atoi_two (a b : Nat) (ha : a < 10) (hb : b < 10) :
    atoi [48 + a, 48 + b] = some ((a : Int) * 10 + b) := by
  have hd : ∀ c' ∈ [48 + a, 48 + b], 48 ≤ c' ∧ c' ≤ 57 := by
    intro c' h
    simp at h
    omega
  have hv : digitsValue 0 [48 + a, 48 + b] = a * 10 + b := by
    simp [digitsValue]
  rw [atoi_digits _ _ hd (by omega), hv]
  push_cast
  rfl

/-- The zone written for UTC. -/
theorem formatStd_zone_utc (b : List Nat) (t : Time) (h : t.offset = 0) :
    formatStd b t Std.stdISO8601ColonTZ = b ++ [90] := by
  simp [formatStd, h]

/-- The zone written for an offset of whole minutes below 100 hours: a sign,
two digits of hours, a colon and two digits of minutes. -/
theorem formatStd_zone (b : List Nat) (t : Time) (h0 : t.offset ≠ 0) (h60 : t.offset % 60 = 0)
    (h1 : -360000 < t.offset) (h2 : t.offset < 360000) :
    ∃ sign hr mn : Nat, (sign = 43 ∨ sign = 45) ∧ hr < 100 ∧ mn < 60 ∧
      formatStd b t Std.stdISO8601ColonTZ =
        b ++ [sign, 48 + hr / 10, 48 + hr % 10, 58, 48 + mn / 10, 48 + mn % 10] ∧
      t.offset = (if sign = 43 then ((hr : Int) * 60 + mn) * 60 else -(((hr : Int) * 60 + mn) * 60)) := by
  have hb : (t.offset == 0) = false := by simpa using h0
  have hdvd : (60 : Int) ∣ t.offset := Int.dvd_of_emod_eq_zero h60
  have htd : Int.tdiv t.offset 60 = t.offset / 60 := Int.tdiv_eq_ediv_of_dvd hdvd
  by_cases hneg : t.offset < 0
  · obtain ⟨z, hz⟩ := Int.eq_ofNat_of_zero_le (by omega : 0 ≤ -(t.offset / 60))
    have hzlt : ¬ (-(t.offset / 60) < 0) := by omega
    have hlt : t.offset / 60 < 0 := by omega
    have e1 : Int.tdiv (z : Int) 60 = ((z / 60 : Nat) : Int) := (Int.ofNat_tdiv z 60).symm
    have e2 : Int.tmod (z : Int) 60 = ((z % 60 : Nat) : Int) := (Int.ofNat_tmod z 60).symm
    refine ⟨45, z / 60, z % 60, Or.inr rfl, by omega, by omega, ?_, ?_⟩
    · simp only [formatStd, hb, Bool.false_eq_true, if_false, htd, hlt, if_true, hz, e1, e2]
      rw [appendInt_two _ (z / 60) (by omega), appendInt_two _ (z % 60) (by omega)]
      simp
    · simp only [show ¬ ((45 : Nat) = 43) by decide, if_false]
      omega
  · obtain ⟨z, hz⟩ := Int.eq_ofNat_of_zero_le (by omega : 0 ≤ t.offset / 60)
    have hlt : ¬ (t.offset / 60 < 0) := by omega
    have hlt2 : ¬ ((z : Int) < 0) := by omega
    have e1 : Int.tdiv (z : Int) 60 = ((z / 60 : Nat) : Int) := (Int.ofNat_tdiv z 60).symm
    have e2 : Int.tmod (z : Int) 60 = ((z % 60 : Nat) : Int) := (Int.ofNat_tmod z 60).symm
    refine ⟨43, z / 60, z % 60, Or.inl rfl, by omega, by omega, ?_, ?_⟩
    · simp only [formatStd, hb, Bool.false_eq_true, if_false, htd, hlt, hz, hlt2, e1, e2]
      rw [appendInt_two _ (z / 60) (by omega), appendInt_two _ (z % 60) (by omega)]
      simp
    · simp only [if_true]
      omega

/-- Reading the zone `Z`. -/
theorem parseStd_zone_utc (next : Option Std) (f : Fields) (rest : List Nat) :
    parseStd Std.stdISO8601ColonTZ next f (90 :: rest) =
      ⟨{ f with z := true }, rest, [], true⟩ := by
  simp [parseStd]

/-- Reading a zone of a sign, two digits of hours, a colon and two digits of
minutes. -/
theorem parseStd_zone (next : Option Std) (f : Fields) (sign hr mn : Nat) (rest : List Nat)
    (hsign : sign = 43 ∨ sign = 45) (hhr : hr < 100) (hmn : mn < 60) :
    parseStd Std.stdISO8601ColonTZ next f
      (sign :: (48 + hr / 10) :: (48 + hr % 10) :: 58 :: (48 + mn / 10) :: (48 + mn % 10) :: rest) =
      ⟨{ f with zoneOffset :=
          if sign = 43 then ((hr : Int) * 60 + mn) * 60 else -(((hr : Int) * 60 + mn) * 60) },
        rest, [], true⟩ := by
  have a1 := atoi_two (hr / 10) (hr % 10) (by omega) (by omega)
  have a2 := atoi_two (mn / 10) (mn % 10) (by omega) (by omega)
  have e1 : ((hr / 10 : Nat) : Int) * 10 + ((hr % 10 : Nat) : Int) = hr := by omega
  have e2 : ((mn / 10 : Nat) : Int) * 10 + ((mn % 10 : Nat) : Int) = mn := by omega
  rw [e1] at a1
  rw [e2] at a2
  rcases hsign with h | h <;> subst h <;>
    simp [parseStd, a1, a2]

end time

namespace time

/-! ## Encoding a time and decoding it again -/

/-- The text `MarshalJSON` writes, in terms of the date and the time of day of
the absolute time. -/
theorem AppendFormat_text (t : Time) (Y M D h m s : Nat)
    (hd : absDate t.abs true = ((Y : Int), (M : Int), (D : Int), yearDay (isLeap Y) M D))
    (hc : absClock t.abs = ((h : Int), (m : Int), (s : Int)))
    (hY : Y ≤ 9999) (hM : M ≤ 12) (hD : D < 100) (hh : h < 24) (hm : m < 60) (hs : s < 60) :
    t.AppendFormat [34] RFC3339Nano =
      formatStd (formatNano
        (34 :: (48 + Y / 1000) :: (48 + Y / 100 % 10) :: (48 + Y / 10 % 10) :: (48 + Y % 10) ::
          45 :: (48 + M / 10) :: (48 + M % 10) :: 45 :: (48 + D / 10) :: (48 + D % 10) ::
          84 :: (48 + h / 10) :: (48 + h % 10) :: 58 :: (48 + m / 10) :: (48 + m % 10) ::
          58 :: (48 + s / 10) :: (48 + s % 10) :: []) t.nsec 9) t Std.stdISO8601ColonTZ := by
  have fy : ∀ b, formatStd b t Std.stdLongYear = appendInt b (Y : Int) 4 := by
    intro b
    show appendInt b (absDate t.abs true).1 4 = _
    rw [hd]
  have fmo : ∀ b, formatStd b t Std.stdZeroMonth = appendInt b (M : Int) 2 := by
    intro b
    show appendInt b (absDate t.abs true).2.1 2 = _
    rw [hd]
  have fd : ∀ b, formatStd b t Std.stdZeroDay = appendInt b (D : Int) 2 := by
    intro b
    show appendInt b (absDate t.abs true).2.2.1 2 = _
    rw [hd]
  have fh : ∀ b, formatStd b t Std.stdHour = appendInt b (h : Int) 2 := by
    intro b
    show appendInt b (absClock t.abs).1 2 = _
    rw [hc]
  have fmi : ∀ b, formatStd b t Std.stdZeroMinute = appendInt b (m : Int) 2 := by
    intro b
    show appendInt b (absClock t.abs).2.1 2 = _
    rw [hc]
  have fs : ∀ b, formatStd b t Std.stdZeroSecond = appendInt b (s : Int) 2 := by
    intro b
    show appendInt b (absClock t.abs).2.2 2 = _
    rw [hc]
  have ff : ∀ b, formatStd b t Std.stdFracSecond9 = formatNano b t.nsec 9 := fun _ => rfl
  simp only [Time.AppendFormat, RFC3339Nano, dateTimeChunks, List.cons_append, List.nil_append,
    appendChunks, fy, fmo, fd, fh, fmi, fs, ff, List.append_nil,
    appendInt_four _ Y (by omega), appendInt_two _ M (by omega),
    appendInt_two _ D hD, appendInt_two _ h (by omega), appendInt_two _ m (by omega),
    appendInt_two _ s (by omega)]
  simp [ascii]


/-- The fraction written for a number of nanoseconds, and how the seconds and
that fraction are read back before a zone. -/
theorem frac_text (n s : Nat) (hn : n < 1000000000) (hs : s < 60) :
    ∃ fracT : List Nat, (∀ b, formatNano b (n : Int) 9 = b ++ fracT) ∧
      ∀ (Y M D h m : Int) (c : Nat) (rs : List Nat), (c = 90 ∨ c = 43 ∨ c = 45) →
        parseStd Std.stdZeroSecond (some Std.stdISO8601ColonTZ)
          { Fields.init with year := Y, month := M, day := D, hour := h, min := m }
          ((48 + s / 10) :: (48 + s % 10) :: (fracT ++ c :: rs)) =
        ⟨{ Fields.init with
            year := Y, month := M, day := D, hour := h, min := m, sec := s, nsec := n },
          c :: rs, [], true⟩ := by
  by_cases h0 : n = 0
  · subst h0
    refine ⟨[], fun b => by rw [List.append_nil]; exact formatNano_zero b, ?_⟩
    intro Y M D h m c rs hc
    have hr : (decide ((c :: rs).length ≥ 2) && (c :: rs).head? == some 46 &&
        isDigit (c :: rs) 1) = false := by
      have : ((some c : Option Nat) == some 46) = false := by
        rcases hc with h | h | h <;> subst h <;> decide
      simp [this]
    rw [List.nil_append, parseStd_second _ _ s _ hs hr]
    rfl
  · obtain ⟨c0, cs, _, hfmt, hd, hv, hl⟩ := formatNano_pos [] n h0 hn
    refine ⟨46 :: c0 :: cs, ?_, ?_⟩
    · intro b
      obtain ⟨c1, cs1, hT1, hfmt1, _, _, _⟩ := formatNano_pos b n h0 hn
      obtain ⟨c2, cs2, hT2, hfmt2, _, _, _⟩ := formatNano_pos [] n h0 hn
      rw [hT1] at hT2
      rw [hfmt1]
      rw [hfmt] at hfmt2
      simp only [List.nil_append] at hfmt2
      rw [hfmt2, hT2]
    · intro Y M D h m c rs hc
      have hr : ∀ c' ∈ (c :: rs).head?, c' < 48 ∨ 57 < c' := by
        intro c' h'
        simp at h'
        omega
      exact parseStd_second_frac (some Std.stdISO8601ColonTZ) (by decide) _ s n c0 cs (c :: rs)
        hs hd hv hl hn hr

/-- The zone written for an offset of whole minutes below 100 hours, and how
it is read back. -/
theorem zone_text (t : Time) (h60 : t.offset % 60 = 0) (h1 : -360000 < t.offset)
    (h2 : t.offset < 360000) :
    ∃ (c : Nat) (rs : List Nat), (c = 90 ∨ c = 43 ∨ c = 45) ∧
      (∀ b, formatStd b t Std.stdISO8601ColonTZ = b ++ c :: rs) ∧
      ∀ (f : Fields) (rest : List Nat),
        parseStd Std.stdISO8601ColonTZ none f (c :: rs ++ rest) =
          ⟨if t.offset = 0 then { f with z := true } else { f with zoneOffset := t.offset },
            rest, [], true⟩ := by
  by_cases h0 : t.offset = 0
  · refine ⟨90, [], Or.inl rfl, fun b => formatStd_zone_utc b t h0, ?_⟩
    intro f rest
    rw [if_pos h0]
    exact parseStd_zone_utc none f rest
  · obtain ⟨sign, hr, mn, hsign, hhr, hmn, _, hoff⟩ := formatStd_zone [] t h0 h60 h1 h2
    refine ⟨sign, [48 + hr / 10, 48 + hr % 10, 58, 48 + mn / 10, 48 + mn % 10], ?_, ?_, ?_⟩
    · rcases hsign with h | h
      · exact Or.inr (Or.inl h)
      · exact Or.inr (Or.inr h)
    · intro b
      obtain ⟨sign', hr', mn', hsign', hhr', hmn', hfmt', hoff'⟩ := formatStd_zone b t h0 h60 h1 h2
      have hs : sign' = sign := by
        rcases hsign with h | h <;> rcases hsign' with h' | h' <;> subst h <;> subst h' <;>
          simp at hoff hoff' <;> omega
      subst hs
      have : hr' = hr ∧ mn' = mn := by
        rcases hsign' with h | h <;> subst h <;> simp at hoff hoff' <;> omega
      rw [hfmt', this.1, this.2]
    · intro f rest
      rw [if_neg h0]
      have := parseStd_zone none f sign hr mn rest hsign hhr hmn
      rw [← hoff] at this
      exact this


/-- For a time in a four-digit year the sum `Time.abs` forms does not wrap. -/
theorem abs_no_wrap (sec off A dse yd secs Y : Int)
    (hsec : -9223372036854775808 ≤ sec ∧ sec < 9223372036854775808)
    (hoff : -360000 < off ∧ off < 360000)
    (hdef : A = (sec + off + 9223371966579724800) % 18446744073709551616)
    (hA : A = (dse + yd) * 86400 + secs)
    (hY : 0 ≤ Y ∧ Y ≤ 9999)
    (hbnd : 365 * (Y + 292277022399) ≤ dse ∧ dse ≤ 366 * (Y + 292277022399))
    (hyd : 0 ≤ yd ∧ yd < 366) (hs : 0 ≤ secs ∧ secs < 86400) :
    A = sec + off + 9223371966579724800 := by
  omega

/-- The seconds of a time of day, within the day. -/
theorem secs_bounds (h m s : Nat) (hh : h < 24) (hm : m < 60) (hs : s < 60) :
    0 ≤ (h : Int) * 3600 + (m : Int) * 60 + (s : Int) ∧
      (h : Int) * 3600 + (m : Int) * 60 + (s : Int) < 86400 := by
  omega

/-- Taking the offset off the wall clock seconds gives the seconds back. -/
theorem i64_back (sec off : Int)
    (hsec : -9223372036854775808 ≤ sec ∧ sec < 9223372036854775808) :
    i64 (sec + off + 9223371966579724800 - 9223371966579724800 - off) = sec := by
  unfold i64
  omega

/-- The offset-aware layout reads the encoding of a time whose offset is a
whole number of minutes below 100 hours back into that time. -/
theorem Parse_MarshalJSON (t : Time) (b : List Nat)
    (hsec : -9223372036854775808 ≤ t.sec ∧ t.sec < 9223372036854775808)
    (hns : 0 ≤ t.nsec ∧ t.nsec < 1000000000)
    (hoff : t.offset % 60 = 0 ∧ -360000 < t.offset ∧ t.offset < 360000)
    (henc : t.MarshalJSON = Except.ok b) :
    Parse quotedRFC3339 b = (t, none) ∧ b.head? = some 34 := by
  -- the encoding succeeded: the year has four digits
  unfold Time.MarshalJSON at henc
  split at henc
  · simp at henc
  rename_i hyear
  simp only [Except.ok.injEq] at henc
  have hA0 : 0 ≤ t.abs := by
    unfold Time.abs u64
    omega
  have hY0 : 0 ≤ (absDate t.abs false).1 := by
    have : t.Year = (absDate t.abs false).1 := rfl
    omega
  have hY1 : (absDate t.abs false).1 ≤ 9999 := by
    have : t.Year = (absDate t.abs false).1 := rfl
    omega
  obtain ⟨Y, M, D, h, m, s, _, hfull, hclock, hY, hM1, hM2, hD1, hD2, hh, hm, hs, hA⟩ :=
    absDate_inv t.abs hA0 hY0 hY1
  obtain ⟨n, hn⟩ := Int.eq_ofNat_of_zero_le hns.1
  have hD3 : D < 100 := by
    have := daysIn_le M Y (by omega) (by omega)
    omega
  -- the text written
  obtain ⟨fracT, hfrac, hfracp⟩ := frac_text n s (by omega) hs
  obtain ⟨c, rs, hc, hzone, hzonep⟩ := zone_text t hoff.1 hoff.2.1 hoff.2.2
  have htext := AppendFormat_text t Y M D h m s hfull hclock hY hM2 hD3 hh hm hs
  rw [hn, hfrac, hzone] at htext
  have hb : b =
      34 :: (48 + Y / 1000) :: (48 + Y / 100 % 10) :: (48 + Y / 10 % 10) :: (48 + Y % 10) ::
        45 :: (48 + M / 10) :: (48 + M % 10) :: 45 :: (48 + D / 10) :: (48 + D % 10) ::
        84 :: (48 + h / 10) :: (48 + h % 10) :: 58 :: (48 + m / 10) :: (48 + m % 10) ::
        58 :: (48 + s / 10) :: (48 + s % 10) :: (fracT ++ c :: (rs ++ [34])) := by
    rw [← henc, htext]
    simp
  -- the time read back
  have hdate := Date_utc Y M D h m s n (by omega) (by omega) (by omega) (by omega) (by omega)
    hD2 (by omega) (by omega) (by omega) (by omega) (by omega) (by omega) (by omega) (by omega)
  rw [← hA] at hdate
  have hbnd := daysSinceEpoch_bounds Y (by omega) (by omega)
  have hyb := yearDay_bounds Y M D (by omega) (by omega) (by omega) hD2
  have hyb2 : yearDay (isLeap Y) M D < 366 := by
    have := hyb.2
    split at this <;> omega
  have habs : t.abs = t.sec + t.offset + 9223371966579724800 :=
    abs_no_wrap t.sec t.offset t.abs (daysSinceEpoch Y) (yearDay (isLeap Y) M D)
      ((h : Int) * 3600 + (m : Int) * 60 + (s : Int)) Y hsec hoff.2 rfl hA
      ⟨Int.natCast_nonneg Y, Int.ofNat_le.mpr hY⟩ hbnd ⟨hyb.1, hyb2⟩
      (secs_bounds h m s hh hm hs)
  refine ⟨?_, by rw [hb]; rfl⟩
  have hch : quotedRFC3339.chunks =
      dateTimeChunks [34] ++ [⟨[], Std.stdISO8601ColonTZ, ascii "Z07:00"⟩] := rfl
  have hsf : quotedRFC3339.suffix = [34] := rfl
  unfold Parse
  rw [hch, hsf]
  conv_lhs => rw [hb]
  rw [parseChunks_dateTime _ _ [⟨[], Std.stdISO8601ColonTZ, ascii "Z07:00"⟩] Y M D h m s _
    (by omega) hM1 hM2 hD3 hh hm hs _ _ (hfracp Y M D h m c (rs ++ [34]) hc)]
  have hz : parseStd (Chunk.std ⟨[], Std.stdISO8601ColonTZ, ascii "Z07:00"⟩)
      (([] : List Chunk).head?.map Chunk.std)
      { Fields.init with
        year := Y, month := M, day := D, hour := h, min := m, sec := s, nsec := n }
      (c :: (rs ++ [34])) =
      ⟨if t.offset = 0 then
          { Fields.init with
            year := Y, month := M, day := D, hour := h, min := m, sec := s, nsec := n, z := true }
        else
          { Fields.init with
            year := Y, month := M, day := D, hour := h, min := m, sec := s, nsec := n,
            zoneOffset := t.offset },
        [34], [], true⟩ :=
    hzonep { Fields.init with
      year := Y, month := M, day := D, hour := h, min := m, sec := s, nsec := n } [34]
  rw [parseChunks_step _ _ ⟨[], Std.stdISO8601ColonTZ, ascii "Z07:00"⟩ [] _ _
    (c :: (rs ++ [34])) (c :: (rs ++ [34])) [34] (skip_nil _) hz]
  simp only [parseChunks, skip_byte 34 [] (by decide)]
  have hday : ¬ ((D : Int) < 1 ∨ (D : Int) > daysIn M Y) := by omega
  rcases t with ⟨sec, nsec, off⟩
  simp only at hn habs hdate hsec hoff ⊢
  by_cases h0 : off = 0
  · subst h0
    simp only [if_true, Fields.init, List.length_nil, bne_self_eq_false, Bool.false_eq_true,
      if_false, hday, hdate, habs]
    simp [hn]
  · have hne : ¬ (off = -1) := by omega
    simp only [if_neg h0, Fields.init, List.length_nil, bne_self_eq_false, Bool.false_eq_true,
      if_false, hday, hdate, habs]
    simp only [bne_iff_ne, ne_eq, hne, not_false_eq_true, if_true, Prod.mk.injEq, and_true,
      Time.mk.injEq]
    exact ⟨i64_back sec off hsec, hn.symm⟩

end time

/-- C3 (counterexample): the time 2020-01-02 03:04:05 UTC in a zone 30 seconds
east of UTC encodes as `"2020-01-02T03:04:35+00:00"`, which decodes to an
instant 30 seconds later, at offset 0. -/
theorem C3_round_trip_counterexample :
    time.Time.MarshalJSON ⟨63713531045, 0, 30⟩ =
      Except.ok ([34] ++ ascii "2020-01-02T03:04:35+00:00" ++ [34]) ∧
    Time.UnmarshalJSON ⟨time.Time.zero⟩ ([34] ++ ascii "2020-01-02T03:04:35+00:00" ++ [34]) =
      (⟨⟨63713531075, 0, 0⟩⟩, none) ∧
    (⟨63713531075, 0, 0⟩ : time.Time) ≠ ⟨63713531045, 0, 30⟩ :=
  ⟨by rfl, by decide, by decide⟩

/-- C3 (amended): for every time (seconds an `int64`, nanoseconds below 10^9)
whose zone offset is a whole number of minutes below 100 hours in absolute
value and whose JSON encoding succeeds, `Time.UnmarshalJSON` decodes the
encoding without error to that time, instant and offset. -/
theorem C3_round_trip_whole_minutes (t0 : Time) (t : time.Time) (b : List Nat)
    (hsec : -9223372036854775808 ≤ t.sec ∧ t.sec < 9223372036854775808)
    (hns : 0 ≤ t.nsec ∧ t.nsec < 1000000000)
    (hoff : t.offset % 60 = 0 ∧ -360000 < t.offset ∧ t.offset < 360000)
    (henc : time.Time.MarshalJSON t = Except.ok b) :
    Time.UnmarshalJSON t0 b = (⟨t⟩, none) := by
  obtain ⟨hp, hq⟩ := time.Parse_MarshalJSON t b hsec hns hoff henc
  have hnull : b ≠ ascii "null" := by
    intro h
    rw [h] at hq
    exact absurd hq (by decide)
  unfold Time.UnmarshalJSON time.Time.UnmarshalJSON
  rw [if_neg hnull, hp]

/-- Witness of C3 (amended): 2020-01-02 03:04:05.00012 in a zone one hour east
of UTC. -/
theorem C3_round_trip_whole_minutes_witness :
    Time.UnmarshalJSON ⟨time.Time.zero⟩
      ([34] ++ ascii "2020-01-02T03:04:05.00012+01:00" ++ [34]) =
      (⟨⟨63713527445, 120000, 3600⟩⟩, none) :=
  C3_round_trip_whole_minutes ⟨time.Time.zero⟩ ⟨63713527445, 120000, 3600⟩
    ([34] ++ ascii "2020-01-02T03:04:05.00012+01:00" ++ [34])
    (by decide) (by decide) (by decide) (by rfl)

end keystone
